import Mathlib

/-!
Verification of the stochastic graph-coloring engine of this repository.

The JavaScript sources are shallowly embedded: colorings (`{nodeId: color}`
objects) become functions `Nat → Option α` where `none` plays the role of a
JS null/undefined value, `Infinity`-capable counters become `Option Nat`
with `none` as infinity, floating-point quantities become exact rationals,
and every call to `Math.random()` is supplied through an explicit oracle
argument so that every definition is a pure, executable function.
-/

set_option autoImplicit false

namespace GraphColoring

/-- Edge of the graph: an unordered pair of node identifiers stored as
`sourceId`/`targetId` (mirrors `Edge` in the model layer). -/
structure Edge where
  sourceId : Nat
  targetId : Nat
deriving DecidableEq, Repr

/-- A coloring map `{nodeId: color}`; `none` models a missing key or a
null/undefined color. -/
abbrev ColorMap (α : Type) := Nat → Option α

/-- Result of `evaluarColoracion`: conflict count plus the conflicting edges. -/
structure EvalResult where
  conflicts : Nat
  conflictEdges : List Edge
deriving DecidableEq, Repr

/-- Embeds `evaluarColoracion(aristas, mapaColores)` from
`src/models/utils/graphEvaluation.js`: walks the edge list, counting an edge
and recording it whenever both endpoint colors are present (truthy) and
equal. -/
def evaluarColoracion {α : Type} [DecidableEq α]
    (aristas : List Edge) (mapaColores : ColorMap α) : EvalResult :=
  aristas.foldl
    (fun acc arista =>
      match mapaColores arista.sourceId, mapaColores arista.targetId with
      | some primerColor, some segundoColor =>
          if primerColor = segundoColor then
            { conflicts := acc.conflicts + 1,
              conflictEdges := acc.conflictEdges ++
                [{ sourceId := arista.sourceId, targetId := arista.targetId }] }
          else acc
      | _, _ => acc)
    { conflicts := 0, conflictEdges := [] }

/-- Specification-side predicate: an edge is a conflict for a coloring map
iff both endpoints hold equal, non-null colors. -/
def esConflictoSegunMapa {α : Type} [DecidableEq α]
    (mapaColores : ColorMap α) (arista : Edge) : Bool :=
  match mapaColores arista.sourceId, mapaColores arista.targetId with
  | some c1, some c2 => c1 = c2
  | _, _ => false

theorem evaluarColoracion_foldl_aux {α : Type} [DecidableEq α]
    (mapaColores : ColorMap α) (aristas : List Edge) (acc : EvalResult) :
    aristas.foldl
      (fun acc arista =>
        match mapaColores arista.sourceId, mapaColores arista.targetId with
        | some primerColor, some segundoColor =>
            if primerColor = segundoColor then
              { conflicts := acc.conflicts + 1,
                conflictEdges := acc.conflictEdges ++
                  [{ sourceId := arista.sourceId, targetId := arista.targetId }] }
            else acc
        | _, _ => acc)
      acc =
    { conflicts := acc.conflicts + (aristas.filter (esConflictoSegunMapa mapaColores)).length,
      conflictEdges := acc.conflictEdges ++ (aristas.filter (esConflictoSegunMapa mapaColores)) } := by
  induction aristas generalizing acc with
  | nil => simp
  | cons a t ih =>
    simp only [List.foldl_cons, List.filter_cons]
    rcases h1 : mapaColores a.sourceId with _ | c1 <;>
      rcases h2 : mapaColores a.targetId with _ | c2
    · simp [esConflictoSegunMapa, h1, h2, ih]
    · simp [esConflictoSegunMapa, h1, h2, ih]
    · simp [esConflictoSegunMapa, h1, h2, ih]
    · by_cases hc : c1 = c2
      · subst hc
        simp only [esConflictoSegunMapa, h1, h2, if_pos rfl, ih]
        simp [EvalResult.mk.injEq]
        omega
      · simp [esConflictoSegunMapa, h1, h2, hc, ih]

/-- Claim C1: `evaluarColoracion(edges, assignment)` returns a
`conflictCount` equal to the number of edges whose two endpoints both hold
equal non-null colors, together with exactly those edges (in order) as
`conflictEdges`; an edge with a null/undefined color on either endpoint is
never counted.  Purity and determinism are inherent: the embedding is a
total function of its arguments. -/
theorem C1_evaluarColoracion_correcta {α : Type} [DecidableEq α]
    (aristas : List Edge) (mapaColores : ColorMap α) :
    (evaluarColoracion aristas mapaColores).conflicts =
      (aristas.filter (esConflictoSegunMapa mapaColores)).length ∧
    (evaluarColoracion aristas mapaColores).conflictEdges =
      aristas.filter (esConflictoSegunMapa mapaColores) := by
  unfold evaluarColoracion
  rw [evaluarColoracion_foldl_aux]
  simp

/-- Embeds `coloracionAleatoria(nodos, coloresDisponibles)` from
`graphEvaluation.js`.  The per-node `Math.random()` draws are supplied by the
oracle `pick`: the i-th node in the list receives palette index `pick i`
(an out-of-range index yields `none`, as out-of-range JS indexing yields
`undefined`).  Later nodes overwrite earlier ones on duplicate ids, as JS
object assignment does. -/
def coloracionAleatoria {α : Type} (nodos : List Nat) (coloresDisponibles : List α)
    (pick : Nat → Nat) : ColorMap α :=
  nodos.enum.foldl
    (fun acc p => fun id => if id = p.2 then coloresDisponibles.get? (pick p.1) else acc id)
    (fun _ => none)

/-- The fixed color-name list `COLOR_PALETTE.NAMES` from `models/constants`. -/
def COLOR_PALETTE_NAMES : List String :=
  ["blue", "red", "green", "yellow", "purple", "orange", "cyan", "magenta", "lime", "pink"]

/-- Embeds `generarPaletaColores(numeroColores)`: the first `numeroColores`
entries of the fixed palette (`Array.prototype.slice(0, n)` is `take n`). -/
def generarPaletaColores (numeroColores : Nat) : List String :=
  COLOR_PALETTE_NAMES.take numeroColores

/-- History record appended by `guardarIntentoEnHistorial` (the wall-clock
`timestamp` field is omitted from the embedding; no claim concerns it). -/
structure HistoryEntry where
  attemptNumber : Nat
  conflicts : Nat
  success : Bool
deriving DecidableEq, Repr

/-- Mutable state of `BaseAlgorithm` (shared by `LasVegas` and `MonteCarlo`).
`bestConflicts = none` models the initial `Infinity`. -/
structure BAState (α : Type) where
  nodes : List Nat
  edges : List Edge
  availableColors : List α
  attempts : Nat
  totalConflicts : Nat
  successCount : Nat
  bestColors : ColorMap α
  bestConflicts : Option Nat
  bestConflictEdges : List Edge
  finished : Bool
  attemptsHistory : List HistoryEntry

/-- State built by the `BaseAlgorithm` constructor (the palette, produced in
source by `generarPaletaColores(numberOfColors)`, is passed explicitly). -/
def BAState.init {α : Type} (nodes : List Nat) (edges : List Edge)
    (availableColors : List α) : BAState α :=
  { nodes, edges, availableColors,
    attempts := 0, totalConflicts := 0, successCount := 0,
    bestColors := fun _ => none, bestConflicts := none, bestConflictEdges := [],
    finished := false, attemptsHistory := [] }

/-- JS comparison `conflictos < this.bestEvaluation.conflicts` where the
right side may be `Infinity` (`none`). -/
def ltBest (conflictos : Nat) (best : Option Nat) : Bool :=
  match best with
  | none => true
  | some b => conflictos < b

/-- JS comparison `this.attempts >= max` where `max` may be `Infinity`. -/
def geMax (attempts : Nat) (maxAttempts : Option Nat) : Bool :=
  match maxAttempts with
  | none => false
  | some m => attempts ≥ m

/-- Embeds `BaseAlgorithm.actualizarMejorSolucion`. -/
def actualizarMejorSolucion {α : Type} (s : BAState α) (colores : ColorMap α)
    (conflictos : Nat) (aristasConflicto : List Edge) : BAState α :=
  if ltBest conflictos s.bestConflicts then
    { s with bestConflicts := some conflictos,
             bestConflictEdges := aristasConflicto,
             bestColors := colores }
  else s

/-- Embeds `BaseAlgorithm.updateStatistics`. -/
def updateStatistics {α : Type} (s : BAState α) (conflicts : Nat) (success : Bool) :
    BAState α :=
  { s with attempts := s.attempts + 1,
           totalConflicts := s.totalConflicts + conflicts,
           successCount := if success then s.successCount + 1 else s.successCount }

/-- Embeds `BaseAlgorithm.guardarIntentoEnHistorial` (called after
`updateStatistics`, so `attemptNumber` is the already-incremented counter). -/
def guardarIntentoEnHistorial {α : Type} (s : BAState α) (conflictos : Nat)
    (exito : Bool) : BAState α :=
  { s with attemptsHistory :=
      s.attemptsHistory ++ [{ attemptNumber := s.attempts, conflicts := conflictos, success := exito }] }

/-- Statistics object produced by `calcularEstadisticasAlgoritmo`. -/
structure Stats where
  attempts : Nat
  conflicts : Nat
  meanConflicts : ℚ
  successRate : ℚ
  progress : ℚ
deriving DecidableEq, Repr

/-- Embeds `calcularEstadisticasAlgoritmo` from `graphEvaluation.js` with
exact rationals for the float averages; `mejoresConflictos = none` models
`Infinity` (mapped to 0, as in source), and `maxIntentos = none` models an
unbounded `Infinity` cap (for which `intentos/Infinity` is 0 and
`Infinity > 0`, so the reported progress is 0). -/
def calcularEstadisticasAlgoritmo (intentos conteoExitos totalConflictos : Nat)
    (mejoresConflictos : Option Nat) (maxIntentos : Option Nat) : Stats :=
  let conflictosPromedio : ℚ := if intentos > 0 then (totalConflictos : ℚ) / intentos else 0
  let tasaExito : ℚ := if intentos > 0 then (conteoExitos : ℚ) / intentos else 0
  let progreso : ℚ :=
    match maxIntentos with
    | some m => if m > 0 then min ((intentos : ℚ) / m) 1 else 1
    | none => 0
  { attempts := intentos,
    conflicts := match mejoresConflictos with | none => 0 | some b => b,
    meanConflicts := conflictosPromedio,
    successRate := tasaExito,
    progress := progreso }

/-- Per-step `currentAttempt` record (`conflicts` may be the possibly
infinite best count in the early-return branch). -/
structure CurrentAttempt where
  conflicts : Option Nat
  success : Bool

/-- Object returned by a `step()` call of `LasVegas` / `MonteCarlo`. -/
structure StepResult (α : Type) where
  done : Bool
  colors : ColorMap α
  conflictEdges : List Edge
  stats : Stats
  currentAttempt : CurrentAttempt

namespace LasVegas

/-- Embeds `LasVegas.step` from `MonteCarlo.js`.  `maxAttempts = none`
models `Infinity`.  The `Math.random()` draws of this step's
`coloracionAleatoria` call come from the oracle `pick`.  Returns the
post-step state together with the returned result object (in source,
`this.bestColors || …` always takes `this.bestColors`: an object is
truthy). -/
def step {α : Type} [DecidableEq α] (maxAttempts : Option Nat) (s : BAState α)
    (pick : Nat → Nat) : BAState α × StepResult α :=
  if s.finished || geMax s.attempts maxAttempts then
    let s' := { s with finished := true }
    let stats := calcularEstadisticasAlgoritmo s'.attempts s'.successCount
      s'.totalConflicts s'.bestConflicts maxAttempts
    (s', { done := true, colors := s'.bestColors, conflictEdges := s'.bestConflictEdges,
           stats,
           currentAttempt := { conflicts := s'.bestConflicts,
                               success := s'.bestConflicts = some 0 } })
  else
    let colors := coloracionAleatoria s.nodes s.availableColors pick
    let evalResult := evaluarColoracion s.edges colors
    let success := evalResult.conflicts = 0
    let s1 := updateStatistics s evalResult.conflicts success
    let s2 := guardarIntentoEnHistorial s1 evalResult.conflicts success
    let s3 := actualizarMejorSolucion s2 colors evalResult.conflicts evalResult.conflictEdges
    let s4 := if success then { s3 with finished := true } else s3
    let stats := calcularEstadisticasAlgoritmo s4.attempts s4.successCount
      s4.totalConflicts s4.bestConflicts maxAttempts
    (s4, { done := s4.finished || geMax s4.attempts maxAttempts,
           colors := s4.bestColors, conflictEdges := s4.bestConflictEdges,
           stats,
           currentAttempt := { conflicts := some evalResult.conflicts, success } })

/-- Iterated `step()` calls, one oracle per call. -/
def runSteps {α : Type} [DecidableEq α] (maxAttempts : Option Nat) :
    BAState α → List (Nat → Nat) → BAState α
  | s, [] => s
  | s, p :: ps => runSteps maxAttempts (step maxAttempts s p).1 ps

end LasVegas

namespace MonteCarlo

/-- Embeds `MonteCarlo.step` from `MonteCarlo.js`; `iterations` is the
finite trial budget.  The trial branch never sets `finished` (no early exit
on success); the guarded `actualizarMejorSolucion` call is kept exactly as
in source. -/
def step {α : Type} [DecidableEq α] (iterations : Nat) (s : BAState α)
    (pick : Nat → Nat) : BAState α × StepResult α :=
  if s.finished || s.attempts ≥ iterations then
    let s' := { s with finished := true }
    let stats := calcularEstadisticasAlgoritmo s'.attempts s'.successCount
      s'.totalConflicts s'.bestConflicts (some iterations)
    (s', { done := true, colors := s'.bestColors, conflictEdges := s'.bestConflictEdges,
           stats,
           currentAttempt := { conflicts := s'.bestConflicts,
                               success := s'.bestConflicts = some 0 } })
  else
    let colors := coloracionAleatoria s.nodes s.availableColors pick
    let evalResult := evaluarColoracion s.edges colors
    let success := evalResult.conflicts = 0
    let s1 := updateStatistics s evalResult.conflicts success
    let s2 := guardarIntentoEnHistorial s1 evalResult.conflicts success
    let s3 := if ltBest evalResult.conflicts s2.bestConflicts then
        actualizarMejorSolucion s2 colors evalResult.conflicts evalResult.conflictEdges
      else s2
    let stats := calcularEstadisticasAlgoritmo s3.attempts s3.successCount
      s3.totalConflicts s3.bestConflicts (some iterations)
    (s3, { done := s3.finished || s3.attempts ≥ iterations,
           colors := s3.bestColors, conflictEdges := s3.bestConflictEdges,
           stats,
           currentAttempt := { conflicts := some evalResult.conflicts, success } })

/-- Iterated `step()` calls, one oracle per call. -/
def runSteps {α : Type} [DecidableEq α] (iterations : Nat) :
    BAState α → List (Nat → Nat) → BAState α
  | s, [] => s
  | s, p :: ps => runSteps iterations (step iterations s p).1 ps

/-- Embeds the `BaseAlgorithm.run` driver loop for a `MonteCarlo` instance:
`step()` is called until it reports `done`, each call consuming the next
randomness oracle from `picks`.  Returns the final state and the last step
result (`none` if the oracle list is exhausted before `done`, which cannot
happen once `picks` covers the trial budget). -/
def runLoop {α : Type} [DecidableEq α] (iterations : Nat) :
    BAState α → List (Nat → Nat) → BAState α × Option (StepResult α)
  | s, [] => (s, none)
  | s, p :: ps =>
    let r := step iterations s p
    if r.2.done then (r.1, some r.2) else runLoop iterations r.1 ps

end MonteCarlo

/-- Non-strict order on best-conflict counters, `none` being `Infinity`. -/
def leBest : Option Nat → Option Nat → Prop
  | _, none => True
  | none, some _ => False
  | some a, some b => a ≤ b

theorem leBest_refl (a : Option Nat) : leBest a a := by
  cases a <;> simp [leBest]

theorem leBest_trans {a b c : Option Nat} (h1 : leBest a b) (h2 : leBest b c) :
    leBest a c := by
  cases a <;> cases b <;> cases c <;> simp_all [leBest]
  omega

theorem actualizar_leBest {α : Type} [DecidableEq α] (s : BAState α)
    (colores : ColorMap α) (conflictos : Nat) (aristasConflicto : List Edge) :
    leBest (actualizarMejorSolucion s colores conflictos aristasConflicto).bestConflicts
      s.bestConflicts := by
  unfold actualizarMejorSolucion
  rcases h : s.bestConflicts with _ | b
  · simp [ltBest, h, leBest]
  · by_cases hb : conflictos < b
    · simp [ltBest, h, hb, leBest]
      omega
    · simp [ltBest, h, hb, leBest]

theorem actualizar_bestConflicts_cero {α : Type} [DecidableEq α] (s : BAState α)
    (colores : ColorMap α) (aristasConflicto : List Edge) :
    (actualizarMejorSolucion s colores 0 aristasConflicto).bestConflicts = some 0 := by
  unfold actualizarMejorSolucion
  rcases h : s.bestConflicts with _ | b
  · simp [ltBest, h]
  · rcases Nat.eq_zero_or_pos b with hb | hb
    · subst hb
      simp [ltBest, h]
    · simp [ltBest, h, hb]

theorem actualizar_preserva {α : Type} [DecidableEq α] (s : BAState α)
    (colores : ColorMap α) (conflictos : Nat) (aristasConflicto : List Edge) :
    (actualizarMejorSolucion s colores conflictos aristasConflicto).attempts = s.attempts ∧
    (actualizarMejorSolucion s colores conflictos aristasConflicto).finished = s.finished ∧
    (actualizarMejorSolucion s colores conflictos aristasConflicto).attemptsHistory = s.attemptsHistory := by
  unfold actualizarMejorSolucion
  split <;> exact ⟨rfl, rfl, rfl⟩

/-- The state produced by the trial branch of `LasVegas.step` (before the
`finished` flag is possibly raised on success). -/
def lvTrialState {α : Type} [DecidableEq α] (s : BAState α) (pick : Nat → Nat) :
    BAState α :=
  let colors := coloracionAleatoria s.nodes s.availableColors pick
  let evalResult := evaluarColoracion s.edges colors
  let success : Bool := evalResult.conflicts = 0
  actualizarMejorSolucion
    (guardarIntentoEnHistorial (updateStatistics s evalResult.conflicts success)
      evalResult.conflicts success)
    colors evalResult.conflicts evalResult.conflictEdges

theorem lv_step_early {α : Type} [DecidableEq α] (maxAttempts : Option Nat)
    (s : BAState α) (pick : Nat → Nat)
    (h : (s.finished || geMax s.attempts maxAttempts) = true) :
    (LasVegas.step maxAttempts s pick).1 = { s with finished := true } ∧
    (LasVegas.step maxAttempts s pick).2.done = true := by
  constructor <;> · simp only [LasVegas.step, h]; rfl

theorem lv_step_trial {α : Type} [DecidableEq α] (maxAttempts : Option Nat)
    (s : BAState α) (pick : Nat → Nat)
    (h : (s.finished || geMax s.attempts maxAttempts) = false) :
    (LasVegas.step maxAttempts s pick).1 =
      (if (evaluarColoracion s.edges (coloracionAleatoria s.nodes s.availableColors pick)).conflicts = 0
       then { lvTrialState s pick with finished := true }
       else lvTrialState s pick) := by
  by_cases hz : (evaluarColoracion s.edges (coloracionAleatoria s.nodes s.availableColors pick)).conflicts = 0
  · simp [LasVegas.step, h, lvTrialState, hz]
  · simp [LasVegas.step, h, lvTrialState, hz]

theorem lv_step_done_iff {α : Type} [DecidableEq α] (maxAttempts : Option Nat)
    (s : BAState α) (pick : Nat → Nat)
    (h : (s.finished || geMax s.attempts maxAttempts) = false) :
    (LasVegas.step maxAttempts s pick).2.done =
      ((LasVegas.step maxAttempts s pick).1.finished ||
        geMax (LasVegas.step maxAttempts s pick).1.attempts maxAttempts) := by
  simp only [LasVegas.step, h, Bool.false_eq_true, if_false]

theorem lvTrialState_fields {α : Type} [DecidableEq α] (s : BAState α) (pick : Nat → Nat) :
    (lvTrialState s pick).attempts = s.attempts + 1 ∧
    (lvTrialState s pick).finished = s.finished ∧
    leBest (lvTrialState s pick).bestConflicts s.bestConflicts ∧
    ((evaluarColoracion s.edges (coloracionAleatoria s.nodes s.availableColors pick)).conflicts = 0 →
      (lvTrialState s pick).bestConflicts = some 0) := by
  unfold lvTrialState
  refine ⟨?_, ?_, ?_, ?_⟩
  · rw [(actualizar_preserva _ _ _ _).1]
    rfl
  · rw [(actualizar_preserva _ _ _ _).2.1]
    rfl
  · exact actualizar_leBest _ _ _ _
  · intro hz
    simp only [hz]
    exact actualizar_bestConflicts_cero _ _ _

/-- Invariant maintained by every Las Vegas execution with finite cap `m`. -/
def LVInv {α : Type} (m : Nat) (s : BAState α) : Prop :=
  s.attempts ≤ m ∧ (s.finished = true → s.bestConflicts = some 0 ∨ s.attempts = m)

theorem lv_step_inv {α : Type} [DecidableEq α] {m : Nat} {s : BAState α}
    (pick : Nat → Nat) (h : LVInv m s) :
    LVInv m (LasVegas.step (some m) s pick).1 := by
  obtain ⟨ha, hf⟩ := h
  rcases hcond : (s.finished || geMax s.attempts (some m)) with _ | _
  · -- trial branch
    have hfin : s.finished = false := (Bool.or_eq_false_iff.mp hcond).1
    have hlt : s.attempts < m := by
      have := (Bool.or_eq_false_iff.mp hcond).2
      simp [geMax] at this
      exact this
    obtain ⟨hat, hfi, _, hz⟩ := lvTrialState_fields s pick
    rw [lv_step_trial (some m) s pick hcond]
    by_cases hc : (evaluarColoracion s.edges (coloracionAleatoria s.nodes s.availableColors pick)).conflicts = 0
    · rw [if_pos hc]
      exact ⟨by simp [hat]; omega, fun _ => Or.inl (by simp [hz hc])⟩
    · rw [if_neg hc]
      exact ⟨by rw [hat]; omega, fun hcontra => absurd (hfi ▸ hcontra) (by simp [hfin])⟩
  · -- early-return branch
    rw [(lv_step_early (some m) s pick hcond).1]
    refine ⟨ha, fun _ => ?_⟩
    rcases Bool.or_eq_true_iff.mp hcond with h1 | h1
    · exact hf h1
    · right
      simp [geMax] at h1
      show s.attempts = m
      omega

theorem lv_runSteps_inv {α : Type} [DecidableEq α] {m : Nat}
    (picks : List (Nat → Nat)) {s : BAState α} (h : LVInv m s) :
    LVInv m (LasVegas.runSteps (some m) s picks) := by
  induction picks generalizing s with
  | nil => exact h
  | cons p ps ih => exact ih (lv_step_inv p h)

theorem lv_init_inv {α : Type} (m : Nat) (nodes : List Nat) (edges : List Edge)
    (palette : List α) : LVInv m (BAState.init nodes edges palette) := by
  exact ⟨Nat.zero_le m, by simp [BAState.init]⟩

theorem lv_step_done_spec {α : Type} [DecidableEq α] {m : Nat} {s : BAState α}
    (pick : Nat → Nat) (h : LVInv m s)
    (hd : (LasVegas.step (some m) s pick).2.done = true) :
    (LasVegas.step (some m) s pick).1.bestConflicts = some 0 ∨
    (LasVegas.step (some m) s pick).1.attempts = m := by
  have h' := lv_step_inv pick h
  rcases hcond : (s.finished || geMax s.attempts (some m)) with _ | _
  · rw [lv_step_done_iff (some m) s pick hcond] at hd
    rcases Bool.or_eq_true_iff.mp hd with h1 | h1
    · exact h'.2 h1
    · right
      have h2 := h'.1
      simp [geMax] at h1
      omega
  · refine h'.2 ?_
    rw [(lv_step_early (some m) s pick hcond).1]

/-- Claim C2: with a finite cap `m`, whenever a `LasVegas.step` reachable
from a fresh instance returns `done = true` the state has
`bestEvaluation.conflicts = 0` or `attempts = m`; a trial that evaluates to
zero conflicts sets `finished`; and once `finished` is set no further trial
is generated (`attempts` and the history stay frozen). -/
theorem C2_lasVegas_terminacion {α : Type} [DecidableEq α]
    (nodes : List Nat) (edges : List Edge) (palette : List α) (m : Nat)
    (picks : List (Nat → Nat)) (pick : Nat → Nat) :
    ((LasVegas.step (some m) (LasVegas.runSteps (some m) (BAState.init nodes edges palette) picks) pick).2.done = true →
      (LasVegas.step (some m) (LasVegas.runSteps (some m) (BAState.init nodes edges palette) picks) pick).1.bestConflicts = some 0 ∨
      (LasVegas.step (some m) (LasVegas.runSteps (some m) (BAState.init nodes edges palette) picks) pick).1.attempts = m) ∧
    (∀ s : BAState α, s.finished = false → s.attempts < m →
      (evaluarColoracion s.edges (coloracionAleatoria s.nodes s.availableColors pick)).conflicts = 0 →
      (LasVegas.step (some m) s pick).1.finished = true ∧
      (LasVegas.step (some m) s pick).1.bestConflicts = some 0) ∧
    (∀ s : BAState α, s.finished = true →
      (LasVegas.step (some m) s pick).1.attempts = s.attempts ∧
      (LasVegas.step (some m) s pick).1.attemptsHistory = s.attemptsHistory) := by
  refine ⟨?_, ?_, ?_⟩
  · exact fun hd => lv_step_done_spec pick (lv_runSteps_inv picks (lv_init_inv m nodes edges palette)) hd
  · intro s hfin hlt hz
    have hcond : (s.finished || geMax s.attempts (some m)) = false := by
      simp [hfin, geMax]
      omega
    rw [lv_step_trial (some m) s pick hcond, if_pos hz]
    refine ⟨rfl, ?_⟩
    show (lvTrialState s pick).bestConflicts = some 0
    exact (lvTrialState_fields s pick).2.2.2 hz
  · intro s hfin
    have hcond : (s.finished || geMax s.attempts (some m)) = true := by
      simp [hfin]
    rw [(lv_step_early (some m) s pick hcond).1]
    exact ⟨rfl, rfl⟩

/-- Witness: instances of the three C2 conjuncts at concrete inputs.  With
cap `m = 1` and one exhausted trial, the extra `step` reports `done` with
`attempts = 1 = m`; a zero-conflict trial on an edgeless graph raises
`finished`; a finished state stays frozen. -/
theorem C2_lasVegas_terminacion_witness :
    ((LasVegas.step (some 1) (LasVegas.runSteps (some 1) (BAState.init [1, 2] [⟨1, 2⟩] ([0, 1] : List Nat)) [fun _ => 0]) (fun _ => 0)).1.bestConflicts = some 0 ∨
     (LasVegas.step (some 1) (LasVegas.runSteps (some 1) (BAState.init [1, 2] [⟨1, 2⟩] ([0, 1] : List Nat)) [fun _ => 0]) (fun _ => 0)).1.attempts = 1) ∧
    ((LasVegas.step (some 1) (BAState.init [1] [] ([0] : List Nat)) (fun _ => 0)).1.finished = true ∧
     (LasVegas.step (some 1) (BAState.init [1] [] ([0] : List Nat)) (fun _ => 0)).1.bestConflicts = some 0) ∧
    (LasVegas.step (some 1) { BAState.init [1] [] ([0] : List Nat) with finished := true } (fun _ => 0)).1.attempts = 0 := by
  refine ⟨?_, ?_, ?_⟩
  · exact (C2_lasVegas_terminacion [1, 2] [⟨1, 2⟩] ([0, 1] : List Nat) 1 [fun _ => 0] (fun _ => 0)).1 (by decide)
  · exact (C2_lasVegas_terminacion [1] [] ([0] : List Nat) 1 [] (fun _ => 0)).2.1
      (BAState.init [1] [] ([0] : List Nat)) rfl (by decide) (by decide)
  · exact ((C2_lasVegas_terminacion [1] [] ([0] : List Nat) 1 [] (fun _ => 0)).2.2
      { BAState.init [1] [] ([0] : List Nat) with finished := true } rfl).1

theorem lv_step_leBest {α : Type} [DecidableEq α] (maxAttempts : Option Nat)
    (s : BAState α) (pick : Nat → Nat) :
    leBest (LasVegas.step maxAttempts s pick).1.bestConflicts s.bestConflicts := by
  rcases hcond : (s.finished || geMax s.attempts maxAttempts) with _ | _
  · rw [lv_step_trial maxAttempts s pick hcond]
    by_cases hz : (evaluarColoracion s.edges (coloracionAleatoria s.nodes s.availableColors pick)).conflicts = 0
    · rw [if_pos hz]
      exact (lvTrialState_fields s pick).2.2.1
    · rw [if_neg hz]
      exact (lvTrialState_fields s pick).2.2.1
  · rw [(lv_step_early maxAttempts s pick hcond).1]
    exact leBest_refl _

theorem lv_runSteps_leBest {α : Type} [DecidableEq α] (maxAttempts : Option Nat)
    (picks : List (Nat → Nat)) (s : BAState α) :
    leBest (LasVegas.runSteps maxAttempts s picks).bestConflicts s.bestConflicts := by
  induction picks generalizing s with
  | nil => exact leBest_refl _
  | cons p ps ih =>
    exact leBest_trans (ih (LasVegas.step maxAttempts s p).1) (lv_step_leBest maxAttempts s p)

/-- The state produced by the trial branch of `MonteCarlo.step`. -/
def mcTrialState {α : Type} [DecidableEq α] (s : BAState α) (pick : Nat → Nat) :
    BAState α :=
  let colors := coloracionAleatoria s.nodes s.availableColors pick
  let evalResult := evaluarColoracion s.edges colors
  let success : Bool := evalResult.conflicts = 0
  let s2 := guardarIntentoEnHistorial (updateStatistics s evalResult.conflicts success)
    evalResult.conflicts success
  if ltBest evalResult.conflicts s2.bestConflicts then
    actualizarMejorSolucion s2 colors evalResult.conflicts evalResult.conflictEdges
  else s2

theorem mc_step_early {α : Type} [DecidableEq α] (iterations : Nat)
    (s : BAState α) (pick : Nat → Nat)
    (h : (s.finished || decide (s.attempts ≥ iterations)) = true) :
    (MonteCarlo.step iterations s pick).1 = { s with finished := true } ∧
    (MonteCarlo.step iterations s pick).2.done = true := by
  constructor <;> · simp only [MonteCarlo.step, h]; rfl

theorem mc_step_trial {α : Type} [DecidableEq α] (iterations : Nat)
    (s : BAState α) (pick : Nat → Nat)
    (h : (s.finished || decide (s.attempts ≥ iterations)) = false) :
    (MonteCarlo.step iterations s pick).1 = mcTrialState s pick ∧
    (MonteCarlo.step iterations s pick).2.done =
      ((mcTrialState s pick).finished || decide ((mcTrialState s pick).attempts ≥ iterations)) ∧
    (MonteCarlo.step iterations s pick).2.colors = (mcTrialState s pick).bestColors ∧
    (MonteCarlo.step iterations s pick).2.stats =
      calcularEstadisticasAlgoritmo (mcTrialState s pick).attempts
        (mcTrialState s pick).successCount (mcTrialState s pick).totalConflicts
        (mcTrialState s pick).bestConflicts (some iterations) := by
  refine ⟨?_, ?_, ?_, ?_⟩ <;> simp only [MonteCarlo.step, h, Bool.false_eq_true, if_false, mcTrialState]

theorem mcTrialState_fields {α : Type} [DecidableEq α] (s : BAState α) (pick : Nat → Nat) :
    (mcTrialState s pick).attempts = s.attempts + 1 ∧
    (mcTrialState s pick).finished = s.finished ∧
    (mcTrialState s pick).nodes = s.nodes ∧
    (mcTrialState s pick).edges = s.edges ∧
    (mcTrialState s pick).availableColors = s.availableColors ∧
    (ltBest (evaluarColoracion s.edges (coloracionAleatoria s.nodes s.availableColors pick)).conflicts s.bestConflicts = true →
      (mcTrialState s pick).bestConflicts =
        some (evaluarColoracion s.edges (coloracionAleatoria s.nodes s.availableColors pick)).conflicts ∧
      (mcTrialState s pick).bestColors = coloracionAleatoria s.nodes s.availableColors pick) ∧
    (ltBest (evaluarColoracion s.edges (coloracionAleatoria s.nodes s.availableColors pick)).conflicts s.bestConflicts = false →
      (mcTrialState s pick).bestConflicts = s.bestConflicts ∧
      (mcTrialState s pick).bestColors = s.bestColors) := by
  unfold mcTrialState
  by_cases hlt : ltBest (evaluarColoracion s.edges (coloracionAleatoria s.nodes s.availableColors pick)).conflicts s.bestConflicts = true
  · simp [hlt, guardarIntentoEnHistorial, updateStatistics, actualizarMejorSolucion]
  · have hlt' : ltBest (evaluarColoracion s.edges (coloracionAleatoria s.nodes s.availableColors pick)).conflicts s.bestConflicts = false :=
      Bool.eq_false_iff.mpr hlt
    simp [hlt', guardarIntentoEnHistorial, updateStatistics, actualizarMejorSolucion]

theorem mc_step_leBest {α : Type} [DecidableEq α] (iterations : Nat)
    (s : BAState α) (pick : Nat → Nat) :
    leBest (MonteCarlo.step iterations s pick).1.bestConflicts s.bestConflicts := by
  rcases hcond : (s.finished || decide (s.attempts ≥ iterations)) with _ | _
  · rw [(mc_step_trial iterations s pick hcond).1]
    obtain ⟨_, _, _, _, _, h1, h2⟩ := mcTrialState_fields s pick
    rcases hlt : ltBest (evaluarColoracion s.edges (coloracionAleatoria s.nodes s.availableColors pick)).conflicts s.bestConflicts with _ | _
    · rw [(h2 hlt).1]
      exact leBest_refl _
    · rw [(h1 hlt).1]
      rcases hb : s.bestConflicts with _ | b
      · simp [leBest]
      · rw [hb] at hlt
        simp only [ltBest, decide_eq_true_eq] at hlt
        simp [leBest]
        omega
  · rw [(mc_step_early iterations s pick hcond).1]
    exact leBest_refl _

theorem mc_runSteps_leBest {α : Type} [DecidableEq α] (iterations : Nat)
    (picks : List (Nat → Nat)) (s : BAState α) :
    leBest (MonteCarlo.runSteps iterations s picks).bestConflicts s.bestConflicts := by
  induction picks generalizing s with
  | nil => exact leBest_refl _
  | cons p ps ih =>
    exact leBest_trans (ih (MonteCarlo.step iterations s p).1) (mc_step_leBest iterations s p)

/-- Claim C3: for both Las Vegas and Monte Carlo, `bestEvaluation.conflicts`
is non-increasing under any sequence of `step()` calls, and
`actualizarMejorSolucion` overwrites `bestColors` / `bestEvaluation` exactly
when the new trial's conflict count is strictly below the current best. -/
theorem C3_mejor_solucion_monotona {α : Type} [DecidableEq α] :
    (∀ (s : BAState α) (colores : ColorMap α) (conflictos : Nat) (aristasConflicto : List Edge),
      (ltBest conflictos s.bestConflicts = true →
        (actualizarMejorSolucion s colores conflictos aristasConflicto).bestConflicts = some conflictos ∧
        (actualizarMejorSolucion s colores conflictos aristasConflicto).bestColors = colores ∧
        (actualizarMejorSolucion s colores conflictos aristasConflicto).bestConflictEdges = aristasConflicto) ∧
      (ltBest conflictos s.bestConflicts = false →
        actualizarMejorSolucion s colores conflictos aristasConflicto = s)) ∧
    (∀ (maxAttempts : Option Nat) (picks : List (Nat → Nat)) (s : BAState α),
      leBest (LasVegas.runSteps maxAttempts s picks).bestConflicts s.bestConflicts) ∧
    (∀ (iterations : Nat) (picks : List (Nat → Nat)) (s : BAState α),
      leBest (MonteCarlo.runSteps iterations s picks).bestConflicts s.bestConflicts) := by
  refine ⟨fun s colores conflictos aristasConflicto => ⟨fun hlt => ?_, fun hge => ?_⟩,
    fun maxAttempts picks s => lv_runSteps_leBest maxAttempts picks s,
    fun iterations picks s => mc_runSteps_leBest iterations picks s⟩
  · unfold actualizarMejorSolucion
    rw [hlt]
    exact ⟨rfl, rfl, rfl⟩
  · unfold actualizarMejorSolucion
    rw [hge]
    rfl

/-- Witness: at concrete inputs, an improving trial (2 conflicts against a
best of `Infinity`) overwrites the best solution, a non-improving one leaves
the state unchanged, and two concrete runs only lower the best count. -/
theorem C3_mejor_solucion_monotona_witness :
    ((actualizarMejorSolucion (BAState.init [1] [] ([0] : List Nat)) (fun _ => some 0) 2 []).bestConflicts = some 2 ∧
     (actualizarMejorSolucion (BAState.init [1] [] ([0] : List Nat)) (fun _ => some 0) 2 []).bestColors = (fun _ => some 0) ∧
     (actualizarMejorSolucion (BAState.init [1] [] ([0] : List Nat)) (fun _ => some 0) 2 []).bestConflictEdges = []) ∧
    (actualizarMejorSolucion { BAState.init [1] [] ([0] : List Nat) with bestConflicts := some 1 } (fun _ => some 0) 2 [] =
      { BAState.init [1] [] ([0] : List Nat) with bestConflicts := some 1 }) ∧
    leBest (LasVegas.runSteps (some 1) (BAState.init [1] [] ([0] : List Nat)) [fun _ => 0]).bestConflicts
      (BAState.init [1] [] ([0] : List Nat)).bestConflicts ∧
    leBest (MonteCarlo.runSteps 1 (BAState.init [1] [] ([0] : List Nat)) [fun _ => 0]).bestConflicts
      (BAState.init [1] [] ([0] : List Nat)).bestConflicts := by
  refine ⟨?_, ?_, ?_, ?_⟩
  · exact ((C3_mejor_solucion_monotona (α := Nat)).1 (BAState.init [1] [] [0]) (fun _ => some 0) 2 []).1 rfl
  · exact ((C3_mejor_solucion_monotona (α := Nat)).1 { BAState.init [1] [] [0] with bestConflicts := some 1 } (fun _ => some 0) 2 []).2 rfl
  · exact (C3_mejor_solucion_monotona (α := Nat)).2.1 (some 1) [fun _ => 0] (BAState.init [1] [] [0])
  · exact (C3_mejor_solucion_monotona (α := Nat)).2.2 1 [fun _ => 0] (BAState.init [1] [] [0])

/-- Conflict count of the random trial that the oracle `p` generates
(specification-side abbreviation). -/
def conflictosDeMuestra {α : Type} [DecidableEq α] (nodes : List Nat)
    (edges : List Edge) (palette : List α) (p : Nat → Nat) : Nat :=
  (evaluarColoracion edges (coloracionAleatoria nodes palette p)).conflicts

/-- Invariant of a Monte Carlo instance that has performed exactly the
trials generated by the oracles in `T`: the configuration is untouched, one
attempt was counted per trial, the run is not finished, and the tracked best
is a minimum-conflict trial among `T`. -/
def MCInv {α : Type} [DecidableEq α] (nodes : List Nat) (edges : List Edge)
    (palette : List α) (T : List (Nat → Nat)) (s : BAState α) : Prop :=
  s.nodes = nodes ∧ s.edges = edges ∧ s.availableColors = palette ∧
  s.attempts = T.length ∧ s.finished = false ∧
  ((T = [] ∧ s.bestConflicts = none) ∨
    (∃ p ∈ T, s.bestColors = coloracionAleatoria nodes palette p ∧
      s.bestConflicts = some (conflictosDeMuestra nodes edges palette p) ∧
      ∀ q ∈ T, conflictosDeMuestra nodes edges palette p ≤ conflictosDeMuestra nodes edges palette q))

theorem calcular_stats_proj (intentos conteoExitos totalConflictos : Nat)
    (mejoresConflictos : Option Nat) (maxIntentos : Option Nat) :
    (calcularEstadisticasAlgoritmo intentos conteoExitos totalConflictos mejoresConflictos maxIntentos).conflicts =
      (match mejoresConflictos with | none => 0 | some b => b) ∧
    (calcularEstadisticasAlgoritmo intentos conteoExitos totalConflictos mejoresConflictos maxIntentos).attempts =
      intentos := ⟨rfl, rfl⟩

theorem mc_inv_step {α : Type} [DecidableEq α] {nodes : List Nat} {edges : List Edge}
    {palette : List α} {N : Nat} {T : List (Nat → Nat)} {s : BAState α}
    (h : MCInv nodes edges palette T s) (hlen : T.length < N) (p : Nat → Nat) :
    MCInv nodes edges palette (T ++ [p]) (MonteCarlo.step N s p).1 ∧
    (MonteCarlo.step N s p).2.done = decide (T.length + 1 ≥ N) ∧
    (MonteCarlo.step N s p).2.colors = (MonteCarlo.step N s p).1.bestColors ∧
    (MonteCarlo.step N s p).2.stats.conflicts =
      (match (MonteCarlo.step N s p).1.bestConflicts with | none => 0 | some b => b) ∧
    (MonteCarlo.step N s p).2.stats.attempts = (MonteCarlo.step N s p).1.attempts := by
  obtain ⟨hn, he, hp, hat, hfin, hbest⟩ := h
  have hcond : (s.finished || decide (s.attempts ≥ N)) = false := by
    simp [hfin, hat]
    omega
  obtain ⟨h1, h2, h3, h4⟩ := mc_step_trial N s p hcond
  obtain ⟨f1, f2, f3, f4, f5, f6, f7⟩ := mcTrialState_fields s p
  have hconf :
      (evaluarColoracion s.edges (coloracionAleatoria s.nodes s.availableColors p)).conflicts =
        conflictosDeMuestra nodes edges palette p := by
    rw [hn, he, hp, conflictosDeMuestra]
  have hcols :
      coloracionAleatoria s.nodes s.availableColors p = coloracionAleatoria nodes palette p := by
    rw [hn, hp]
  refine ⟨⟨?_, ?_, ?_, ?_, ?_, ?_⟩, ?_, ?_, ?_, ?_⟩
  · rw [h1, f3, hn]
  · rw [h1, f4, he]
  · rw [h1, f5, hp]
  · rw [h1, f1, hat]
    simp
  · rw [h1, f2, hfin]
  · -- best tracking
    rw [h1]
    rcases hbest with ⟨hT, hnone⟩ | ⟨q, hq, hbc, hbb, hmin⟩
    · -- first trial: best was Infinity, the trial always improves it
      have hlt : ltBest (evaluarColoracion s.edges (coloracionAleatoria s.nodes s.availableColors p)).conflicts s.bestConflicts = true := by
        rw [hnone]
        rfl
      right
      refine ⟨p, by simp, ?_, ?_, ?_⟩
      · rw [(f6 hlt).2, hcols]
      · rw [(f6 hlt).1, hconf]
      · intro q hq
        rw [hT] at hq
        simp at hq
        rw [hq]
    · rcases hlt : ltBest (evaluarColoracion s.edges (coloracionAleatoria s.nodes s.availableColors p)).conflicts s.bestConflicts with _ | _
      · -- the trial does not improve the best: the old minimum stands
        have hge : conflictosDeMuestra nodes edges palette q ≤ conflictosDeMuestra nodes edges palette p := by
          rw [hbb] at hlt
          simp only [ltBest, decide_eq_false_iff_not] at hlt
          rw [hconf] at hlt
          omega
        right
        refine ⟨q, by simp [hq], (f7 hlt).2 ▸ hbc, (f7 hlt).1 ▸ hbb, ?_⟩
        intro r hr
        rcases List.mem_append.mp hr with hm | hm
        · exact hmin r hm
        · have hrp : r = p := by simpa using hm
          rw [hrp]
          exact hge
      · -- strictly better trial: it becomes the new minimum
        have hlt' : conflictosDeMuestra nodes edges palette p < conflictosDeMuestra nodes edges palette q := by
          rw [hbb] at hlt
          simp only [ltBest, decide_eq_true_eq] at hlt
          rw [hconf] at hlt
          exact hlt
        right
        refine ⟨p, by simp, ?_, ?_, ?_⟩
        · rw [(f6 hlt).2, hcols]
        · rw [(f6 hlt).1, hconf]
        · intro r hr
          rcases List.mem_append.mp hr with hm | hm
          · exact le_trans (le_of_lt hlt') (hmin r hm)
          · have hrp : r = p := by simpa using hm
            rw [hrp]
  · rw [h2, f2, f1, hfin, hat]
    simp
  · rw [h3, h1]
  · rw [h4, h1, (calcular_stats_proj _ _ _ _ _).1]
  · rw [h4, h1, (calcular_stats_proj _ _ _ _ _).2]

theorem mc_inv_init {α : Type} [DecidableEq α] (nodes : List Nat) (edges : List Edge)
    (palette : List α) : MCInv nodes edges palette [] (BAState.init nodes edges palette) :=
  ⟨rfl, rfl, rfl, rfl, rfl, Or.inl ⟨rfl, rfl⟩⟩

theorem mc_inv_runSteps {α : Type} [DecidableEq α] {nodes : List Nat} {edges : List Edge}
    {palette : List α} {N : Nat} :
    ∀ (l T : List (Nat → Nat)) (s : BAState α), MCInv nodes edges palette T s →
      T.length + l.length ≤ N →
      MCInv nodes edges palette (T ++ l) (MonteCarlo.runSteps N s l) := by
  intro l
  induction l with
  | nil =>
    intro T s h _
    simpa using h
  | cons p ps ih =>
    intro T s h hlen
    have hstep := (mc_inv_step (N := N) h (by simp at hlen; omega) p).1
    have := ih (T ++ [p]) (MonteCarlo.step N s p).1 hstep (by simp at hlen ⊢; omega)
    simpa [MonteCarlo.runSteps] using this

theorem mc_runLoop_master {α : Type} [DecidableEq α] {nodes : List Nat}
    {edges : List Edge} {palette : List α} {N : Nat} :
    ∀ (l T : List (Nat → Nat)) (s : BAState α), MCInv nodes edges palette T s →
      T.length + l.length = N → 0 < l.length →
      ∃ r, MonteCarlo.runLoop N s l = (MonteCarlo.runSteps N s l, some r) ∧
        r.done = true ∧
        r.colors = (MonteCarlo.runSteps N s l).bestColors ∧
        r.stats.conflicts =
          (match (MonteCarlo.runSteps N s l).bestConflicts with | none => 0 | some b => b) ∧
        r.stats.attempts = (MonteCarlo.runSteps N s l).attempts := by
  intro l
  induction l with
  | nil =>
    intro T s _ _ hpos
    simp at hpos
  | cons p ps ih =>
    intro T s h hlen hpos
    have hlt : T.length < N := by
      simp at hlen
      omega
    obtain ⟨hstep, hdone, hcols, hconfl, hatt⟩ := mc_inv_step (N := N) h hlt p
    rcases Nat.eq_zero_or_pos ps.length with hps | hps
    · -- last trial: the step reports done and the loop stops here
      have hps' : ps = [] := List.length_eq_zero.mp hps
      subst hps'
      have hN : T.length + 1 = N := by
        simpa using hlen
      have hdone' : (MonteCarlo.step N s p).2.done = true := by
        rw [hdone]
        simp [hN]
      refine ⟨(MonteCarlo.step N s p).2, ?_, hdone', ?_, ?_, ?_⟩
      · simp [MonteCarlo.runLoop, MonteCarlo.runSteps, hdone']
      · simpa [MonteCarlo.runSteps] using hcols
      · simpa [MonteCarlo.runSteps] using hconfl
      · simpa [MonteCarlo.runSteps] using hatt
    · -- more trials pending: the step reports not-done and the loop recurses
      have hdone' : (MonteCarlo.step N s p).2.done = false := by
        rw [hdone]
        simp at hlen
        simp
        omega
      obtain ⟨r, hr⟩ := ih (T ++ [p]) (MonteCarlo.step N s p).1 hstep
        (by simp at hlen ⊢; omega) hps
      refine ⟨r, ?_, hr.2.1, ?_, ?_, ?_⟩
      · simpa [MonteCarlo.runLoop, MonteCarlo.runSteps, hdone'] using hr.1
      · simpa [MonteCarlo.runSteps] using hr.2.2.1
      · simpa [MonteCarlo.runSteps] using hr.2.2.2.1
      · simpa [MonteCarlo.runSteps] using hr.2.2.2.2

/-- Final object returned by `BaseAlgorithm.run` (colors, conflicting edges
and the snapshot of the statistics fields it republishes). -/
structure RunFinal (α : Type) where
  colors : ColorMap α
  conflictEdges : List Edge
  attempts : Nat
  conflicts : Nat
  meanConflicts : ℚ
  successRate : ℚ

/-- Embeds `BaseAlgorithm.run` as driven by a `MonteCarlo` instance: the
loop calls `step()` until `done` and repackages the last step result
(`none` only if the oracle list runs out first, which a list covering the
iteration budget rules out).  The `progressCallback` side channel reports
the same snapshot fields and is not modelled. -/
def MonteCarlo.run {α : Type} [DecidableEq α] (iterations : Nat) (s : BAState α)
    (picks : List (Nat → Nat)) : Option (RunFinal α) :=
  match MonteCarlo.runLoop iterations s picks with
  | (_, none) => none
  | (_, some r) =>
    some { colors := r.colors, conflictEdges := r.conflictEdges, attempts := r.stats.attempts,
           conflicts := r.stats.conflicts, meanConflicts := r.stats.meanConflicts,
           successRate := r.stats.successRate }

/-- Claim C4: a Monte Carlo run over `N ≥ 1` iterations performs exactly `N`
trials — no intermediate step reports `done`, even after a zero-conflict
trial — and the result returned by `run()` carries the assignment and
conflict count of a minimum-conflict trial among all `N` sampled trials. -/
theorem C4_monteCarlo_run_exacto {α : Type} [DecidableEq α]
    (nodes : List Nat) (edges : List Edge) (palette : List α) (N : Nat)
    (picks : List (Nat → Nat)) (hN : 1 ≤ N) (hlen : picks.length = N) :
    ∃ res : RunFinal α,
      MonteCarlo.run N (BAState.init nodes edges palette) picks = some res ∧
      res.attempts = N ∧
      (MonteCarlo.runSteps N (BAState.init nodes edges palette) picks).attempts = N ∧
      (∀ l₁ p l₂, picks = l₁ ++ p :: l₂ → l₁.length + 1 < N →
        (MonteCarlo.step N (MonteCarlo.runSteps N (BAState.init nodes edges palette) l₁) p).2.done = false) ∧
      (∃ p ∈ picks, res.colors = coloracionAleatoria nodes palette p ∧
        res.conflicts = conflictosDeMuestra nodes edges palette p ∧
        ∀ q ∈ picks, conflictosDeMuestra nodes edges palette p ≤ conflictosDeMuestra nodes edges palette q) := by
  have hfin := mc_inv_runSteps (N := N) picks [] (BAState.init nodes edges palette)
    (mc_inv_init nodes edges palette) (by simp [hlen])
  simp only [List.nil_append] at hfin
  obtain ⟨r, hloop, hdone, hcols, hconfl, hatt⟩ := mc_runLoop_master (N := N) picks []
    (BAState.init nodes edges palette) (mc_inv_init nodes edges palette)
    (by simp [hlen]) (by simp [hlen]; omega)
  obtain ⟨_, _, _, hatts, _, hbest⟩ := hfin
  have hnotnil : picks ≠ [] := by
    intro hcontra
    rw [hcontra] at hlen
    simp at hlen
    omega
  rcases hbest with ⟨hT, _⟩ | ⟨p, hp, hbc, hbb, hmin⟩
  · exact absurd hT hnotnil
  refine ⟨{ colors := r.colors, conflictEdges := r.conflictEdges, attempts := r.stats.attempts,
            conflicts := r.stats.conflicts, meanConflicts := r.stats.meanConflicts,
            successRate := r.stats.successRate }, ?_, ?_, ?_, ?_, ?_⟩
  · unfold MonteCarlo.run
    rw [hloop]
  · show r.stats.attempts = N
    rw [hatt, hatts, hlen]
  · rw [hatts, hlen]
  · intro l₁ p' l₂ hsplit hshort
    have hl1le : l₁.length ≤ picks.length := by
      rw [hsplit]
      simp
    have hpre : MCInv nodes edges palette l₁
        (MonteCarlo.runSteps N (BAState.init nodes edges palette) l₁) := by
      have h0 := mc_inv_runSteps (N := N) l₁ [] (BAState.init nodes edges palette)
        (mc_inv_init nodes edges palette) (by simp; omega)
      simpa using h0
    have hl1 : l₁.length < N := by omega
    have hd := (mc_inv_step (N := N) hpre hl1 p').2.1
    rw [hd]
    simp
    omega
  · refine ⟨p, hp, ?_, ?_, hmin⟩
    · show r.colors = _
      rw [hcols, hbc]
    · show r.stats.conflicts = _
      rw [hconfl, hbb]

/-- Witness: a concrete two-iteration Monte Carlo run on a single edge with
a one-color palette performs exactly 2 trials and returns the
minimum-conflict trial. -/
theorem C4_monteCarlo_run_exacto_witness :
    1 ≤ 2 ∧
    ∃ res : RunFinal Nat,
      MonteCarlo.run 2 (BAState.init [1, 2] [⟨1, 2⟩] [0]) [fun _ => 0, fun _ => 0] = some res ∧
      res.attempts = 2 ∧
      (MonteCarlo.runSteps 2 (BAState.init [1, 2] [⟨1, 2⟩] [0]) [fun _ => 0, fun _ => 0]).attempts = 2 ∧
      (∀ l₁ p l₂, [fun _ => 0, fun _ => 0] = l₁ ++ p :: l₂ → l₁.length + 1 < 2 →
        (MonteCarlo.step 2 (MonteCarlo.runSteps 2 (BAState.init [1, 2] [⟨1, 2⟩] [0]) l₁) p).2.done = false) ∧
      (∃ p ∈ [fun _ => (0 : Nat), fun _ => 0], res.colors = coloracionAleatoria [1, 2] [0] p ∧
        res.conflicts = conflictosDeMuestra [1, 2] [⟨1, 2⟩] [0] p ∧
        ∀ q ∈ [fun _ => (0 : Nat), fun _ => 0],
          conflictosDeMuestra [1, 2] [⟨1, 2⟩] [0] p ≤ conflictosDeMuestra [1, 2] [⟨1, 2⟩] [0] q) :=
  ⟨by omega,
    C4_monteCarlo_run_exacto [1, 2] [⟨1, 2⟩] [0] 2 [fun _ => 0, fun _ => 0] (by omega) rfl⟩

/-- Graph node as the coloring engine sees it: an identifier and a nullable
color (positions are irrelevant to coloring). -/
structure NodoC (α : Type) where
  id : Nat
  color : Option α
deriving DecidableEq, Repr

/-- Embeds `esVecino(arista, idNodo)` from `graphAnalysis.js`. -/
def esVecino (arista : Edge) (idNodo : Nat) : Bool :=
  arista.sourceId = idNodo || arista.targetId = idNodo

/-- Embeds `contarConflictosConColor(idNodo, color, aristas, colores)`:
the number of neighbors (through incident edges, with multiplicity) whose
entry in the color map equals `color`.  JS `null` and a missing key are both
`none` here. -/
def contarConflictosConColor {α : Type} [DecidableEq α] (idNodo : Nat)
    (color : Option α) (aristas : List Edge) (colores : ColorMap α) : Nat :=
  let idsVecinos := (aristas.filter (fun arista => esVecino arista idNodo)).map
    (fun arista => if arista.sourceId = idNodo then arista.targetId else arista.sourceId)
  (idsVecinos.filter (fun idVecino => colores idVecino = color)).length

/-- Embeds `crearMapaNodos(nodos)`: a JS `Map` keyed by node id; a later
entry overwrites an earlier one with the same id. -/
def crearMapaNodos {α : Type} (nodos : List (NodoC α)) : Nat → Option (NodoC α) :=
  nodos.foldl (fun acc n => fun i => if i = n.id then some n else acc i) (fun _ => none)

/-- Embeds `esConflicto(arista, nodoMap)`: both endpoints exist and hold
equal truthy colors. -/
def esConflicto {α : Type} [DecidableEq α] (arista : Edge)
    (nodoMap : Nat → Option (NodoC α)) : Bool :=
  match nodoMap arista.sourceId, nodoMap arista.targetId with
  | some origen, some destino =>
    match origen.color, destino.color with
    | some c1, some c2 => c1 = c2
    | _, _ => false
  | _, _ => false

/-- Embeds `obtenerAristasConflicto(nodos, aristas)`. -/
def obtenerAristasConflicto {α : Type} [DecidableEq α] (nodos : List (NodoC α))
    (aristas : List Edge) : List Edge :=
  (aristas.filter (fun arista => esConflicto arista (crearMapaNodos nodos))).map
    (fun arista => { sourceId := arista.sourceId, targetId := arista.targetId })

/-- JS `Set.add`: appends a new element, keeps insertion order, ignores
duplicates. -/
def insertSet (l : List Nat) (x : Nat) : List Nat :=
  if x ∈ l then l else l ++ [x]

/-- Embeds `obtenerVecinosNodo(idNodo, aristas, nodos)`: ids adjacent to
`idNodo` in `Set` insertion order, resolved through the node map and with
missing nodes dropped (`filter(Boolean)`). -/
def obtenerVecinosNodo {α : Type} (idNodo : Nat) (aristas : List Edge)
    (nodos : List (NodoC α)) : List (NodoC α) :=
  let idsVecinos := aristas.foldl
    (fun acc arista =>
      if arista.sourceId = idNodo then insertSet acc arista.targetId
      else if arista.targetId = idNodo then insertSet acc arista.sourceId
      else acc)
    []
  idsVecinos.filterMap (crearMapaNodos nodos)

/-- Embeds `obtenerColoresVecinos(idNodo, aristas, nodos)`: the truthy
colors of the neighbors.  The JS `Set` is modelled by the underlying list;
only membership queries are ever made of it, and they agree. -/
def obtenerColoresVecinos {α : Type} (idNodo : Nat) (aristas : List Edge)
    (nodos : List (NodoC α)) : List α :=
  (obtenerVecinosNodo idNodo aristas nodos).filterMap (fun nodo => nodo.color)

/-- The color-copy loop `nodos.forEach(n => colors[n.id] = n.color)` used by
the `LocalSearch` constructor and `actualizarConflictos`: a later node
overwrites an earlier one with the same id. -/
def asignarColores {α : Type} (nodos : List (NodoC α)) : ColorMap α :=
  nodos.foldl (fun acc n => fun id => if id = n.id then n.color else acc id) (fun _ => none)

/-- Mutable state of a `LocalSearch` optimizer (`BaseAlgorithm.js`). -/
structure LSState (α : Type) where
  nodos : List (NodoC α)
  aristas : List Edge
  colorPalette : List α
  colors : ColorMap α
  conflictEdges : List Edge
  conflictingNodes : List Nat
  currentIndex : Nat
  recoloredCount : Nat
  totalRecoloredCount : Nat
  recoloredNodes : List (Nat × Option α × Option α)
  initialConflicts : Nat
  done : Bool
  passNumber : Nat

/-- Endpoint collection loop of `_actualizarNodosConflictivos`: the node ids
touching the given edges, in `Set` insertion order. -/
def nodosDeAristas (conflictEdges : List Edge) : List Nat :=
  conflictEdges.foldl
    (fun acc edge => insertSet (insertSet acc edge.sourceId) edge.targetId) []

/-- Embeds `LocalSearch._actualizarNodosConflictivos`: endpoints of the
current conflict edges, in `Set` insertion order. -/
def actualizarNodosConflictivos {α : Type} (s : LSState α) : LSState α :=
  { s with conflictingNodes := nodosDeAristas s.conflictEdges }

namespace LocalSearch

/-- Embeds the `LocalSearch` constructor (the palette, produced in source by
`generarPaletaColores(numberOfColors)`, is passed explicitly). -/
def init {α : Type} [DecidableEq α] (nodos : List (NodoC α)) (aristas : List Edge)
    (colorPalette : List α) : LSState α :=
  let colors := asignarColores nodos
  let conflictEdges := obtenerAristasConflicto nodos aristas
  actualizarNodosConflictivos
    { nodos, aristas, colorPalette, colors, conflictEdges,
      conflictingNodes := [], currentIndex := 0, recoloredCount := 0,
      totalRecoloredCount := 0, recoloredNodes := [],
      initialConflicts := conflictEdges.length, done := false, passNumber := 1 }

end LocalSearch

/-- Result of `encontrarMejorColor`. -/
structure BestColorResult (α : Type) where
  bestColor : Option α
  minimumConflicts : Nat
  wasImproved : Bool

/-- Embeds `LocalSearch.encontrarMejorColor(nodeId)`: greedy scan of the
palette, skipping the current color, keeping the first strict improver. -/
def encontrarMejorColor {α : Type} [DecidableEq α] (s : LSState α) (nodeId : Nat) :
    BestColorResult α :=
  let currentColor := s.colors nodeId
  let inicial : Option α × Nat :=
    (currentColor, contarConflictosConColor nodeId currentColor s.aristas s.colors)
  let mejor := s.colorPalette.foldl
    (fun acc color =>
      if some color = currentColor then acc
      else
        let conflictsWithColor := contarConflictosConColor nodeId (some color) s.aristas s.colors
        if conflictsWithColor < acc.2 then (some color, conflictsWithColor) else acc)
    inicial
  { bestColor := mejor.1, minimumConflicts := mejor.2,
    wasImproved := mejor.1 ≠ currentColor }

/-- Embeds `LocalSearch.actualizarConflictos`: saves the graph nodes'
committed colors, temporarily writes the private assignment into the nodes,
recomputes the conflict edges, and restores every committed color from the
saved map. -/
def actualizarConflictos {α : Type} [DecidableEq α] (s : LSState α) : LSState α :=
  let originalColors := asignarColores s.nodos
  let mutados := s.nodos.map (fun nodo => { nodo with color := s.colors nodo.id })
  let conflictEdges := obtenerAristasConflicto mutados s.aristas
  let restaurados := mutados.map (fun nodo => { nodo with color := originalColors nodo.id })
  { s with nodos := restaurados, conflictEdges := conflictEdges }

namespace LocalSearch

/-- Node-processing tail of `LocalSearch.step()`: look up the queued node at
`currentIndex`, recolor it when a strictly better color exists (recording
the change), advance the index and recompute the conflict set.  The `none`
arm of the queue lookup is unreachable: the pass-boundary block of `step`
guarantees a queued node before reaching this code. -/
def procesarNodo {α : Type} [DecidableEq α] (s : LSState α) : LSState α :=
  match s.conflictingNodes.get? s.currentIndex with
  | none => s
  | some nodeId =>
    let r := encontrarMejorColor s nodeId
    let s :=
      if r.wasImproved then
        { s with colors := fun id => if id = nodeId then r.bestColor else s.colors id,
                 recoloredCount := s.recoloredCount + 1,
                 totalRecoloredCount := s.totalRecoloredCount + 1,
                 recoloredNodes := s.recoloredNodes ++ [(nodeId, s.colors nodeId, r.bestColor)] }
      else s
    actualizarConflictos { s with currentIndex := s.currentIndex + 1 }

/-- Embeds `LocalSearch.step()`.  The pass-boundary block may finish the run
(zero conflicts, or a completed pass without recolors) or start a new pass;
otherwise the queued node at `currentIndex` is processed. -/
def step {α : Type} [DecidableEq α] (s : LSState α) : LSState α :=
  if s.done then s
  else
    let s :=
      if s.currentIndex ≥ s.conflictingNodes.length then
        if s.conflictEdges.length = 0 then { s with done := true }
        else if s.recoloredCount = 0 then { s with done := true }
        else actualizarNodosConflictivos
          { s with passNumber := s.passNumber + 1, currentIndex := 0, recoloredCount := 0 }
      else s
    if s.done then s
    else procesarNodo s

/-- Iterated `step()` calls. -/
def stepN {α : Type} [DecidableEq α] (s : LSState α) : Nat → LSState α
  | 0 => s
  | n + 1 => stepN (step s) n

end LocalSearch

/-- Invariant of the accumulator of the `encontrarMejorColor` palette fold
after the prefix `P` has been scanned. -/
def buenAcc {α : Type} [DecidableEq α] (nodeId : Nat) (aristas : List Edge)
    (colores : ColorMap α) (currentColor : Option α) (P : List α)
    (acc : Option α × Nat) : Prop :=
  contarConflictosConColor nodeId acc.1 aristas colores = acc.2 ∧
  acc.2 ≤ contarConflictosConColor nodeId currentColor aristas colores ∧
  (∀ c ∈ P, some c ≠ currentColor →
    acc.2 ≤ contarConflictosConColor nodeId (some c) aristas colores) ∧
  (acc.1 = currentColor ↔ ∀ c ∈ P, some c ≠ currentColor →
    contarConflictosConColor nodeId currentColor aristas colores ≤
      contarConflictosConColor nodeId (some c) aristas colores) ∧
  (acc.1 = currentColor ∨ ∃ c ∈ P, acc.1 = some c)

theorem fold_mejor_color {α : Type} [DecidableEq α] (nodeId : Nat)
    (aristas : List Edge) (colores : ColorMap α) (currentColor : Option α) :
    ∀ (l P : List α) (acc : Option α × Nat),
      buenAcc nodeId aristas colores currentColor P acc →
      buenAcc nodeId aristas colores currentColor (P ++ l)
        (l.foldl
          (fun acc color =>
            if some color = currentColor then acc
            else
              let conflictsWithColor := contarConflictosConColor nodeId (some color) aristas colores
              if conflictsWithColor < acc.2 then (some color, conflictsWithColor) else acc)
          acc) := by
  intro l
  induction l with
  | nil =>
    intro P acc h
    simpa using h
  | cons c t ih =>
    intro P acc h
    obtain ⟨h1, h2, h3, h4, h5⟩ := h
    have hstep : buenAcc nodeId aristas colores currentColor (P ++ [c])
        (if some c = currentColor then acc
         else
           let conflictsWithColor := contarConflictosConColor nodeId (some c) aristas colores
           if conflictsWithColor < acc.2 then (some c, conflictsWithColor) else acc) := by
      by_cases hc : some c = currentColor
      · rw [if_pos hc]
        refine ⟨h1, h2, ?_, ?_, ?_⟩
        · intro c' hc' hne
          rcases List.mem_append.mp hc' with hm | hm
          · exact h3 c' hm hne
          · have : c' = c := by simpa using hm
            rw [this] at hne
            exact absurd hc hne
        · constructor
          · intro hcur c' hc' hne
            rcases List.mem_append.mp hc' with hm | hm
            · exact h4.mp hcur c' hm hne
            · have : c' = c := by simpa using hm
              rw [this] at hne
              exact absurd hc hne
          · intro hall
            exact h4.mpr (fun c' hm hne => hall c' (List.mem_append.mpr (Or.inl hm)) hne)
        · rcases h5 with h5 | ⟨c', hm, hv⟩
          · exact Or.inl h5
          · exact Or.inr ⟨c', List.mem_append.mpr (Or.inl hm), hv⟩
      · rw [if_neg hc]
        by_cases hk : contarConflictosConColor nodeId (some c) aristas colores < acc.2
        · simp only [if_pos hk]
          refine ⟨rfl, by omega, ?_, ?_, ?_⟩
          · intro c' hc' _
            rcases List.mem_append.mp hc' with hm | hm
            · have := h3 c' hm
              by_cases hne : some c' = currentColor
              · -- the bound for colors equal to the current one follows from h2
                rw [hne]
                omega
              · have := h3 c' hm hne
                omega
            · have : c' = c := by simpa using hm
              rw [this]
          · constructor
            · intro hcontra
              exact absurd hcontra hc
            · intro hall
              exfalso
              have := hall c (List.mem_append.mpr (Or.inr (by simp))) hc
              omega
          · exact Or.inr ⟨c, List.mem_append.mpr (Or.inr (by simp)), rfl⟩
        · simp only [if_neg hk]
          refine ⟨h1, h2, ?_, ?_, ?_⟩
          · intro c' hc' hne
            rcases List.mem_append.mp hc' with hm | hm
            · exact h3 c' hm hne
            · have : c' = c := by simpa using hm
              rw [this]
              omega
          · constructor
            · intro hcur c' hc' hne
              rcases List.mem_append.mp hc' with hm | hm
              · exact h4.mp hcur c' hm hne
              · have hcc : c' = c := by simpa using hm
                rw [hcc]
                rw [hcur] at h1
                omega
            · intro hall
              exact h4.mpr (fun c' hm hne => hall c' (List.mem_append.mpr (Or.inl hm)) hne)
          · rcases h5 with h5 | ⟨c', hm, hv⟩
            · exact Or.inl h5
            · exact Or.inr ⟨c', List.mem_append.mpr (Or.inl hm), hv⟩
    have := ih (P ++ [c]) _ hstep
    simpa [List.append_assoc] using this

theorem encontrar_buenAcc {α : Type} [DecidableEq α] (s : LSState α) (nodeId : Nat) :
    buenAcc nodeId s.aristas s.colors (s.colors nodeId) s.colorPalette
      ((encontrarMejorColor s nodeId).bestColor, (encontrarMejorColor s nodeId).minimumConflicts) := by
  have h0 : buenAcc nodeId s.aristas s.colors (s.colors nodeId) []
      (s.colors nodeId, contarConflictosConColor nodeId (s.colors nodeId) s.aristas s.colors) := by
    refine ⟨rfl, le_refl _, by simp, ?_, Or.inl rfl⟩
    simp
  have hf := fold_mejor_color nodeId s.aristas s.colors (s.colors nodeId) s.colorPalette []
    (s.colors nodeId, contarConflictosConColor nodeId (s.colors nodeId) s.aristas s.colors) h0
  simpa [encontrarMejorColor] using hf

theorem actualizarConflictos_colors {α : Type} [DecidableEq α] (s : LSState α) :
    (actualizarConflictos s).colors = s.colors := rfl

/-- Claim C5: `encontrarMejorColor` evaluates every palette color together
with the node's current one through `contarConflictosConColor` against the
neighbors' current colors, and returns the current color unless a palette
color achieves a strictly smaller conflict count; on ties the current color
is kept, `wasImproved` is false, and the surrounding `step()` performs no
recolor.  The hypothesis that the node holds a color reflects the claim's
scope (nodes processed by `step()` always do) and keeps the `Option`-valued
embedding faithful to the JS `===` comparisons. -/
theorem C5_encontrar_mejor_color {α : Type} [DecidableEq α] (s : LSState α)
    (nodeId : Nat) (c₀ : α) (_hcur : s.colors nodeId = some c₀) :
    ((encontrarMejorColor s nodeId).wasImproved = true ↔
      (encontrarMejorColor s nodeId).bestColor ≠ s.colors nodeId) ∧
    ((encontrarMejorColor s nodeId).bestColor = s.colors nodeId ↔
      ¬ ∃ c ∈ s.colorPalette, some c ≠ s.colors nodeId ∧
        contarConflictosConColor nodeId (some c) s.aristas s.colors <
          contarConflictosConColor nodeId (s.colors nodeId) s.aristas s.colors) ∧
    contarConflictosConColor nodeId (encontrarMejorColor s nodeId).bestColor s.aristas s.colors =
      (encontrarMejorColor s nodeId).minimumConflicts ∧
    (encontrarMejorColor s nodeId).minimumConflicts ≤
      contarConflictosConColor nodeId (s.colors nodeId) s.aristas s.colors ∧
    (∀ c ∈ s.colorPalette,
      (encontrarMejorColor s nodeId).minimumConflicts ≤
        contarConflictosConColor nodeId (some c) s.aristas s.colors) ∧
    (s.done = false → s.currentIndex < s.conflictingNodes.length →
      s.conflictingNodes.get? s.currentIndex = some nodeId →
      (encontrarMejorColor s nodeId).wasImproved = false →
      (LocalSearch.step s).colors = s.colors) := by
  obtain ⟨h1, h2, h3, h4, _⟩ := encontrar_buenAcc s nodeId
  refine ⟨?_, ?_, h1, h2, ?_, ?_⟩
  · simp [encontrarMejorColor]
  · rw [h4]
    constructor
    · intro hall
      rintro ⟨c, hm, hne, hlt⟩
      have := hall c hm hne
      omega
    · intro hnex c hm hne
      by_contra hcontra
      exact hnex ⟨c, hm, hne, by omega⟩
  · intro c hm
    by_cases hne : some c = s.colors nodeId
    · rw [hne]
      exact h2
    · exact h3 c hm hne
  · intro hdone hlt hget himp
    have hge : ¬ (s.currentIndex ≥ s.conflictingNodes.length) := Nat.not_le.mpr hlt
    simp only [LocalSearch.step, hdone, Bool.false_eq_true, if_false, if_neg hge]
    simp only [LocalSearch.procesarNodo, hget, himp, Bool.false_eq_true, if_false,
      actualizarConflictos_colors]

/-- Witness for C5: a path `1 - 2 - 3` colored `[0, 1, 0]` with palette
`[0, 1, 2]`; node 2 keeps its color 1 (already conflict-free), so nothing is
recolored. -/
theorem C5_encontrar_mejor_color_witness :
    ((encontrarMejorColor
        { nodos := [⟨1, some 0⟩, ⟨2, some 1⟩, ⟨3, some 0⟩],
          aristas := [⟨1, 2⟩, ⟨2, 3⟩],
          colorPalette := [0, 1, 2],
          colors := asignarColores [⟨1, some 0⟩, ⟨2, some 1⟩, ⟨3, some 0⟩],
          conflictEdges := [], conflictingNodes := [2], currentIndex := 0,
          recoloredCount := 0, totalRecoloredCount := 0, recoloredNodes := [],
          initialConflicts := 0, done := false, passNumber := 1 } 2).bestColor =
      asignarColores [⟨1, some 0⟩, ⟨2, some 1⟩, ⟨3, some (0 : Nat)⟩] 2 ↔
      ¬ ∃ c ∈ [0, 1, 2], some c ≠ asignarColores [⟨1, some 0⟩, ⟨2, some 1⟩, ⟨3, some (0 : Nat)⟩] 2 ∧
        contarConflictosConColor 2 (some c) [⟨1, 2⟩, ⟨2, 3⟩] (asignarColores [⟨1, some 0⟩, ⟨2, some 1⟩, ⟨3, some 0⟩]) <
          contarConflictosConColor 2 (asignarColores [⟨1, some 0⟩, ⟨2, some 1⟩, ⟨3, some 0⟩] 2) [⟨1, 2⟩, ⟨2, 3⟩] (asignarColores [⟨1, some 0⟩, ⟨2, some 1⟩, ⟨3, some 0⟩])) := by
  have h := C5_encontrar_mejor_color
    { nodos := [⟨1, some 0⟩, ⟨2, some 1⟩, ⟨3, some 0⟩],
      aristas := [⟨1, 2⟩, ⟨2, 3⟩],
      colorPalette := [0, 1, 2],
      colors := asignarColores [⟨1, some 0⟩, ⟨2, some 1⟩, ⟨3, some 0⟩],
      conflictEdges := [], conflictingNodes := [2], currentIndex := 0,
      recoloredCount := 0, totalRecoloredCount := 0, recoloredNodes := [],
      initialConflicts := 0, done := false, passNumber := 1 } 2 1 (by decide)
  exact h.2.1

theorem asignar_aux {α : Type} :
    ∀ (l : List (NodoC α)) (acc : Nat → Option α) (i : Nat),
      (l.foldl (fun acc n => fun id => if id = n.id then n.color else acc id) acc) i =
      (match l.reverse.find? (fun n => n.id = i) with
       | some n => n.color
       | none => acc i) := by
  intro l
  induction l with
  | nil =>
    intro acc i
    simp
  | cons n t ih =>
    intro acc i
    simp only [List.foldl_cons, List.reverse_cons, List.find?_append]
    rw [ih]
    rcases hfind : t.reverse.find? (fun m => m.id = i) with _ | m
    · by_cases hid : i = n.id
      · subst hid
        simp [hfind, List.find?, Option.or]
      · have hid' : ¬ (n.id = i) := fun hcontra => hid hcontra.symm
        simp [hfind, List.find?, hid, hid', Option.or]
    · simp [hfind, Option.or]

theorem asignarColores_of_nodup {α : Type} (l : List (NodoC α))
    (hnd : (l.map (fun n => n.id)).Nodup) (n : NodoC α) (hn : n ∈ l) :
    asignarColores l n.id = n.color := by
  unfold asignarColores
  rw [asignar_aux]
  rcases hfind : l.reverse.find? (fun m => m.id = n.id) with _ | m
  · exfalso
    have hsome : (l.reverse.find? (fun m => m.id = n.id)).isSome =
        true := List.find?_isSome.mpr ⟨n, List.mem_reverse.mpr hn, by simp⟩
    rw [hfind] at hsome
    simp at hsome
  · have hm1 : m.id = n.id := by simpa using List.find?_some hfind
    have hm2 : m ∈ l := List.mem_reverse.mp (List.mem_of_find?_eq_some hfind)
    have hmn : m = n := List.inj_on_of_nodup_map hnd hm2 hn hm1
    rw [hfind]
    simp [hmn]

theorem actualizarConflictos_nodos {α : Type} [DecidableEq α] (s : LSState α)
    (hnd : (s.nodos.map (fun n => n.id)).Nodup) :
    (actualizarConflictos s).nodos = s.nodos := by
  show (s.nodos.map (fun nodo => ({ nodo with color := s.colors nodo.id } : NodoC α))).map
      (fun nodo => ({ nodo with color := asignarColores s.nodos nodo.id } : NodoC α)) = s.nodos
  rw [List.map_map]
  have hcong : s.nodos.map
      ((fun nodo => ({ nodo with color := asignarColores s.nodos nodo.id } : NodoC α)) ∘
        (fun nodo => ({ nodo with color := s.colors nodo.id } : NodoC α))) = s.nodos.map id := by
    refine List.map_congr_left ?_
    intro n hn
    show ({ n with color := asignarColores s.nodos n.id } : NodoC α) = n
    rw [asignarColores_of_nodup s.nodos hnd n hn]
  rw [hcong, List.map_id]

theorem actualizar_nc_done {α : Type} (s : LSState α) :
    (actualizarNodosConflictivos s).done = s.done := rfl

theorem procesarNodo_nodos {α : Type} [DecidableEq α] (s : LSState α)
    (hnd : (s.nodos.map (fun n => n.id)).Nodup) :
    (LocalSearch.procesarNodo s).nodos = s.nodos := by
  unfold LocalSearch.procesarNodo
  rcases hget : s.conflictingNodes.get? s.currentIndex with _ | nodeId
  · rfl
  · simp only [hget]
    split <;> exact actualizarConflictos_nodos _ hnd

/-- Claim C6: a `LocalSearch.step` leaves the committed color of every graph
node exactly as it found it — `actualizarConflictos` temporarily stamps the
private assignment into the nodes but restores every saved color before
returning, so a strategy never commits colors to the shared graph.  The
distinct-ids hypothesis mirrors the data model (unique node ids). -/
theorem C6_paso_no_toca_grafo {α : Type} [DecidableEq α] (s : LSState α)
    (hnd : (s.nodos.map (fun n => n.id)).Nodup) :
    (LocalSearch.step s).nodos = s.nodos := by
  by_cases hdone : s.done = true
  · simp [LocalSearch.step, hdone]
  · replace hdone : s.done = false := by simpa using hdone
    by_cases hge : s.currentIndex ≥ s.conflictingNodes.length
    · by_cases hce : s.conflictEdges.length = 0
      · simp [LocalSearch.step, hdone, hge, hce]
      · by_cases hrc : s.recoloredCount = 0
        · simp [LocalSearch.step, hdone, hge, hce, hrc]
        · simp only [LocalSearch.step, hdone, Bool.false_eq_true, if_false, if_pos hge,
            if_neg hce, if_neg hrc, actualizar_nc_done]
          exact procesarNodo_nodos _ hnd
    · simp only [LocalSearch.step, hdone, Bool.false_eq_true, if_false, if_neg hge]
      exact procesarNodo_nodos s hnd

/-- Witness for C6: one step over a conflicting pair recolors privately but
leaves the graph's committed colors untouched. -/
theorem C6_paso_no_toca_grafo_witness :
    (LocalSearch.step (LocalSearch.init [⟨1, some 0⟩, ⟨2, some 0⟩] [⟨1, 2⟩] ([0, 1] : List Nat))).nodos =
      [⟨1, some 0⟩, ⟨2, some 0⟩] :=
  C6_paso_no_toca_grafo (LocalSearch.init [⟨1, some 0⟩, ⟨2, some 0⟩] [⟨1, 2⟩] ([0, 1] : List Nat))
    (by decide)

/-- Result of `calcularProbabilidadExito`. -/
structure ProbResult where
  probabilidad : ℚ
  conteoRecoloreables : Nat
deriving DecidableEq, Repr

/-- Embeds `calcularProbabilidadExito` from `recolorAnalysis.js`, with exact
rationals for the float constants.  With no conflicting neighbors the source
returns probability 1.0 immediately; otherwise it counts the conflicting
neighbors that still have an alternative color and applies the heuristic
formula. -/
def calcularProbabilidadExito {α : Type} [DecidableEq α]
    (vecinosConflictivos : List (NodoC α)) (coloresDisponibles : List α)
    (aristas : List Edge) (nodos : List (NodoC α)) (numeroColores : Nat) : ProbResult :=
  if vecinosConflictivos.length = 0 then
    { probabilidad := 1, conteoRecoloreables := 0 }
  else
    let cantidadRecoloreables : Nat := vecinosConflictivos.foldl
      (fun acc vecino =>
        let coloresVecino := obtenerColoresVecinos vecino.id aristas nodos
        let coloresAlternativos := coloresDisponibles.filter (fun color => ¬ color ∈ coloresVecino)
        if coloresAlternativos.length > 0 then acc + 1 else acc)
      0
    let probBase : ℚ := (cantidadRecoloreables : ℚ) / ((max vecinosConflictivos.length 1 : Nat) : ℚ)
    let factorColor : ℚ := 7/10 + 3/10 * ((numeroColores : ℚ) / 10)
    let probabilidad := min (probBase * factorColor) 1
    { probabilidad := probabilidad, conteoRecoloreables := cantidadRecoloreables }

/-- Specification-side recolorable count: the number of conflicting
neighbors having at least one palette color not used by any of their own
neighbors. -/
def conteoRecoloreablesSegunSpec {α : Type} [DecidableEq α]
    (vecinosConflictivos : List (NodoC α)) (coloresDisponibles : List α)
    (aristas : List Edge) (nodos : List (NodoC α)) : Nat :=
  (vecinosConflictivos.filter (fun vecino =>
    coloresDisponibles.any (fun color =>
      ¬ color ∈ obtenerColoresVecinos vecino.id aristas nodos))).length

theorem foldl_recoloreables {α : Type} [DecidableEq α] (coloresDisponibles : List α)
    (aristas : List Edge) (nodos : List (NodoC α)) :
    ∀ (l : List (NodoC α)) (acc : Nat),
      l.foldl
        (fun acc vecino =>
          let coloresVecino := obtenerColoresVecinos vecino.id aristas nodos
          let coloresAlternativos := coloresDisponibles.filter (fun color => ¬ color ∈ coloresVecino)
          if coloresAlternativos.length > 0 then acc + 1 else acc)
        acc =
      acc + conteoRecoloreablesSegunSpec l coloresDisponibles aristas nodos := by
  intro l
  induction l with
  | nil =>
    intro acc
    simp [conteoRecoloreablesSegunSpec]
  | cons v t ih =>
    intro acc
    simp only [List.foldl_cons, conteoRecoloreablesSegunSpec, List.filter_cons]
    by_cases hv : ((coloresDisponibles.filter
        (fun color => ¬ color ∈ obtenerColoresVecinos v.id aristas nodos)).length > 0)
    · have hany : coloresDisponibles.any (fun color =>
          ¬ color ∈ obtenerColoresVecinos v.id aristas nodos) = true := by
        simp only [List.any_eq_true]
        obtain ⟨c, hc⟩ := List.exists_mem_of_length_pos hv
        have hcf := List.mem_filter.mp hc
        exact ⟨c, hcf.1, hcf.2⟩
      rw [if_pos hv, ih, hany]
      simp only [if_pos, List.length_cons, conteoRecoloreablesSegunSpec]
      omega
    · have hany : (coloresDisponibles.any (fun color =>
          ¬ color ∈ obtenerColoresVecinos v.id aristas nodos)) = false := by
        rw [Bool.eq_false_iff]
        intro hcontra
        obtain ⟨c, hc, hcp⟩ := List.any_eq_true.mp hcontra
        have : c ∈ coloresDisponibles.filter
            (fun color => ¬ color ∈ obtenerColoresVecinos v.id aristas nodos) :=
          List.mem_filter.mpr ⟨hc, hcp⟩
        have := List.length_pos.mpr (List.ne_nil_of_mem this)
        omega
      rw [if_neg hv, ih, hany]
      simp only [Bool.false_eq_true, if_false, conteoRecoloreablesSegunSpec]

/-- Counterexample to claim C8 as frozen: with zero conflicting neighbors
the code returns probability 1.0 (early return), while the claimed formula
`min(1, (recolorable / max(1, conflicting)) × (0.7 + 0.3·k/10))` evaluates
to 0 there (`recolorable = 0`). -/
theorem C8_formula_contraejemplo :
    ¬ ((calcularProbabilidadExito ([] : List (NodoC Nat)) [0, 1, 2] [] [] 3).probabilidad =
        min 1 (((0 : ℚ) / max 1 (0 : ℚ)) * (7/10 + 3/10 * ((3 : ℚ) / 10)))) := by
  norm_num [calcularProbabilidadExito]

/-- Claim C8, amended: whenever at least one conflicting neighbor exists the
returned probability is `min(1, (recolorable / max(1, conflicting)) ×
(0.7 + 0.3·k/10))` with `recolorable` counting the conflicting neighbors
that still have a palette color unused by their own neighbors; with zero
conflicting neighbors the function instead returns probability 1.0 and
recolorable count 0 (early return in source, diverging from the formula). -/
theorem C8_probabilidad_exito {α : Type} [DecidableEq α]
    (vecinosConflictivos : List (NodoC α)) (coloresDisponibles : List α)
    (aristas : List Edge) (nodos : List (NodoC α)) (numeroColores : Nat) :
    (vecinosConflictivos ≠ [] →
      (calcularProbabilidadExito vecinosConflictivos coloresDisponibles aristas nodos numeroColores).probabilidad =
        min 1 (((conteoRecoloreablesSegunSpec vecinosConflictivos coloresDisponibles aristas nodos : ℚ) /
            max 1 (vecinosConflictivos.length : ℚ)) * (7/10 + 3/10 * ((numeroColores : ℚ) / 10))) ∧
      (calcularProbabilidadExito vecinosConflictivos coloresDisponibles aristas nodos numeroColores).conteoRecoloreables =
        conteoRecoloreablesSegunSpec vecinosConflictivos coloresDisponibles aristas nodos) ∧
    (vecinosConflictivos = [] →
      calcularProbabilidadExito vecinosConflictivos coloresDisponibles aristas nodos numeroColores =
        { probabilidad := 1, conteoRecoloreables := 0 }) := by
  constructor
  · intro hne
    have hlen : ¬ (vecinosConflictivos.length = 0) := by
      simpa using fun hcontra => hne (List.length_eq_zero.mp hcontra)
    have hfold := foldl_recoloreables coloresDisponibles aristas nodos vecinosConflictivos 0
    rw [Nat.zero_add] at hfold
    unfold calcularProbabilidadExito
    rw [if_neg hlen]
    simp only [hfold]
    constructor
    · have hmax : ((max vecinosConflictivos.length 1 : Nat) : ℚ) =
          max 1 (vecinosConflictivos.length : ℚ) := by
        rw [Nat.cast_max]
        exact max_comm _ _
      rw [hmax, min_comm]
    · trivial
  · intro hnil
    subst hnil
    rfl

/-- Witness for the amended C8: one conflicting neighbor that is recolorable
under palette `[0,1,2]` (its only neighbor set is empty) gives probability
`min(1, (1/1)·0.79) = 79/100`; and the empty case returns `1`. -/
theorem C8_probabilidad_exito_witness :
    ((calcularProbabilidadExito [⟨2, some 0⟩] ([0, 1, 2] : List Nat) [] [] 3).probabilidad =
      min 1 (((conteoRecoloreablesSegunSpec [⟨2, some 0⟩] ([0, 1, 2] : List Nat) [] [] : ℚ) /
          max 1 ((1 : Nat) : ℚ)) * (7/10 + 3/10 * ((3 : ℚ) / 10)))) ∧
    calcularProbabilidadExito ([] : List (NodoC Nat)) [0, 1, 2] [] [] 3 =
      { probabilidad := 1, conteoRecoloreables := 0 } := by
  constructor
  · have h := (C8_probabilidad_exito [⟨2, some 0⟩] ([0, 1, 2] : List Nat) [] [] 3).1
      (by decide)
    exact h.1
  · exact (C8_probabilidad_exito ([] : List (NodoC Nat)) [0, 1, 2] [] [] 3).2 rfl

namespace FORCE_DIRECTED

/-- Constant `FORCE_DIRECTED.POSITION_MIN = 0.02`. -/
def POSITION_MIN : ℚ := 2 / 100

/-- Constant `FORCE_DIRECTED.POSITION_MAX = 0.98`. -/
def POSITION_MAX : ℚ := 98 / 100

end FORCE_DIRECTED

/-- Node as seen by `ForceDirectedLayout`: a position and the force
accumulator fields; floats are modelled by exact rationals. -/
structure PNode where
  x : ℚ
  y : ℚ
  forceX : ℚ
  forceY : ℚ
deriving DecidableEq, Repr

/-- Body of the `aplicarFuerzas` loop for one node.  `Math.sqrt` is supplied
as the oracle `sqrtO` (rationals have no exact square root); the JS guard
`|| 0.001` replaces a zero magnitude — the only falsy value a absolute-value
square root can produce — by `0.001`. -/
def aplicarFuerzaNodo (sqrtO : ℚ → ℚ) (temperatura : ℚ) (nodo : PNode) : PNode :=
  let fuerzaX := nodo.forceX
  let fuerzaY := nodo.forceY
  let raiz := sqrtO (fuerzaX * fuerzaX + fuerzaY * fuerzaY)
  let magnitudFuerza := if raiz = 0 then 1 / 1000 else raiz
  let desplazamiento := min magnitudFuerza temperatura
  let x1 := nodo.x + fuerzaX / magnitudFuerza * desplazamiento
  let y1 := nodo.y + fuerzaY / magnitudFuerza * desplazamiento
  { nodo with
      x := max FORCE_DIRECTED.POSITION_MIN (min FORCE_DIRECTED.POSITION_MAX x1),
      y := max FORCE_DIRECTED.POSITION_MIN (min FORCE_DIRECTED.POSITION_MAX y1) }

/-- Embeds `ForceDirectedLayout.aplicarFuerzas(nodos, temperatura)`: each
node is moved by its accumulated force, displacement capped at the current
temperature, and the result clamped into the safety margin. -/
def aplicarFuerzas (sqrtO : ℚ → ℚ) (nodos : List PNode) (temperatura : ℚ) : List PNode :=
  nodos.map (aplicarFuerzaNodo sqrtO temperatura)

theorem abs_clamp_sub_le (lo hi x z : ℚ) (h1 : lo ≤ x) (h2 : x ≤ hi) :
    |max lo (min hi z) - x| ≤ |z - x| := by
  rcases le_total z hi with hz | hz
  · rw [min_eq_right hz]
    rcases le_total lo z with hlz | hlz
    · rw [max_eq_right hlz]
    · rw [max_eq_left hlz]
      rw [abs_sub_comm, abs_of_nonneg (by linarith), abs_sub_comm z x,
        abs_of_nonneg (by linarith)]
      linarith
  · rw [min_eq_left hz, max_eq_right (le_trans h1 h2)]
    rw [abs_of_nonneg (by linarith), abs_of_nonneg (by linarith)]
    linarith

theorem despl_abs_le (temperatura f s : ℚ) (hfs : |f| ≤ s) (ht : 0 ≤ temperatura) :
    |f / (if s = 0 then 1 / 1000 else s) * min (if s = 0 then 1 / 1000 else s) temperatura| ≤
      temperatura := by
  by_cases hr : s = 0
  · have hf : f = 0 := by
      have h0 : |f| = 0 := le_antisymm (hr ▸ hfs) (abs_nonneg f)
      exact abs_eq_zero.mp h0
    rw [if_pos hr, hf]
    simp [ht]
  · rw [if_neg hr]
    have hm : 0 < s := lt_of_le_of_ne (le_trans (abs_nonneg f) hfs) (Ne.symm hr)
    have hd0 : 0 ≤ min s temperatura := le_min (le_of_lt hm) ht
    rw [abs_mul, abs_div, abs_of_pos hm, abs_of_nonneg hd0]
    calc |f| / s * min s temperatura
        ≤ 1 * min s temperatura :=
          mul_le_mul_of_nonneg_right ((div_le_one hm).mpr hfs) hd0
      _ = min s temperatura := one_mul _
      _ ≤ temperatura := min_le_right _ _

/-- Claim C9: after `aplicarFuerzas` applies the forces of an iteration,
every node's `x` and `y` lie inside the safety margin
`[POSITION_MIN, POSITION_MAX] = [0.02, 0.98]`, and — provided the square
root oracle dominates `|a| ≤ sqrt(a² + b²)`, as the real square root does,
and the temperature is non-negative — a node already inside the margin is
displaced by at most the current temperature in each coordinate. -/
theorem C9_aplicar_fuerzas_clamp (sqrtO : ℚ → ℚ) (nodos : List PNode)
    (temperatura : ℚ) (hs : ∀ a b : ℚ, |a| ≤ sqrtO (a * a + b * b))
    (ht : 0 ≤ temperatura) :
    ∀ par ∈ (aplicarFuerzas sqrtO nodos temperatura).zip nodos,
      (FORCE_DIRECTED.POSITION_MIN ≤ par.1.x ∧ par.1.x ≤ FORCE_DIRECTED.POSITION_MAX ∧
       FORCE_DIRECTED.POSITION_MIN ≤ par.1.y ∧ par.1.y ≤ FORCE_DIRECTED.POSITION_MAX) ∧
      (FORCE_DIRECTED.POSITION_MIN ≤ par.2.x → par.2.x ≤ FORCE_DIRECTED.POSITION_MAX →
        |par.1.x - par.2.x| ≤ temperatura) ∧
      (FORCE_DIRECTED.POSITION_MIN ≤ par.2.y → par.2.y ≤ FORCE_DIRECTED.POSITION_MAX →
        |par.1.y - par.2.y| ≤ temperatura) := by
  have hz : (aplicarFuerzas sqrtO nodos temperatura).zip nodos =
      nodos.map (fun n => (aplicarFuerzaNodo sqrtO temperatura n, n)) := by
    have h0 := List.zip_map' (aplicarFuerzaNodo sqrtO temperatura) id nodos
    simpa [aplicarFuerzas] using h0
  intro par hpar
  rw [hz] at hpar
  obtain ⟨n, hn, hpareq⟩ := List.mem_map.mp hpar
  rw [← hpareq]
  have hminmax : FORCE_DIRECTED.POSITION_MIN ≤ FORCE_DIRECTED.POSITION_MAX := by
    norm_num [FORCE_DIRECTED.POSITION_MIN, FORCE_DIRECTED.POSITION_MAX]
  refine ⟨⟨le_max_left _ _, max_le hminmax (min_le_left _ _),
          le_max_left _ _, max_le hminmax (min_le_left _ _)⟩, ?_, ?_⟩
  · intro hx1 hx2
    refine le_trans (abs_clamp_sub_le FORCE_DIRECTED.POSITION_MIN FORCE_DIRECTED.POSITION_MAX
      n.x _ hx1 hx2) ?_
    have hd := despl_abs_le temperatura n.forceX
      (sqrtO (n.forceX * n.forceX + n.forceY * n.forceY)) (hs n.forceX n.forceY) ht
    simpa [add_sub_cancel_left] using hd
  · intro hy1 hy2
    refine le_trans (abs_clamp_sub_le FORCE_DIRECTED.POSITION_MIN FORCE_DIRECTED.POSITION_MAX
      n.y _ hy1 hy2) ?_
    have hfy : |n.forceY| ≤ sqrtO (n.forceX * n.forceX + n.forceY * n.forceY) := by
      have h0 := hs n.forceY n.forceX
      have harg : n.forceY * n.forceY + n.forceX * n.forceX =
          n.forceX * n.forceX + n.forceY * n.forceY := by ring
      rwa [harg] at h0
    have hd := despl_abs_le temperatura n.forceY
      (sqrtO (n.forceX * n.forceX + n.forceY * n.forceY)) hfy ht
    simpa [add_sub_cancel_left] using hd

/-- Witness for C9: a single centered node feeling no force, with the oracle
`sqrt q := q + 1` (which dominates `|a| ≤ a² + b² + 1`) and temperature 1,
stays at `(1/2, 1/2)`, inside the margin, having moved at most 1. -/
theorem C9_aplicar_fuerzas_clamp_witness :
    FORCE_DIRECTED.POSITION_MIN ≤ (aplicarFuerzaNodo (fun q => q + 1) 1 ⟨1/2, 1/2, 0, 0⟩).x ∧
    (aplicarFuerzaNodo (fun q => q + 1) 1 ⟨1/2, 1/2, 0, 0⟩).x ≤ FORCE_DIRECTED.POSITION_MAX ∧
    |(aplicarFuerzaNodo (fun q => q + 1) 1 ⟨1/2, 1/2, 0, 0⟩).x - 1/2| ≤ 1 := by
  have hsq : ∀ a b : ℚ, |a| ≤ (fun q => q + 1) (a * a + b * b) := by
    intro a b
    show |a| ≤ a * a + b * b + 1
    nlinarith [sq_nonneg (|a| - 1), abs_mul_abs_self a, mul_self_nonneg b, abs_nonneg a]
  have h := C9_aplicar_fuerzas_clamp (fun q => q + 1) [⟨1/2, 1/2, 0, 0⟩] 1 hsq (by norm_num)
  have hmem : ((aplicarFuerzaNodo (fun q => q + 1) 1 ⟨1/2, 1/2, 0, 0⟩), (⟨1/2, 1/2, 0, 0⟩ : PNode)) ∈
      (aplicarFuerzas (fun q => q + 1) [⟨1/2, 1/2, 0, 0⟩] 1).zip [⟨1/2, 1/2, 0, 0⟩] := by
    simp [aplicarFuerzas]
  have h2 := h _ hmem
  exact ⟨h2.1.1, h2.1.2.1,
    h2.2.1 (by norm_num [FORCE_DIRECTED.POSITION_MIN])
      (by norm_num [FORCE_DIRECTED.POSITION_MAX])⟩

/-- Abstract state of the `StateManager` notify/throttle protocol
(`StateManager.js`).  `version` numbers the current application state, one
bump per external notify request; `delivered` records every snapshot handed
to the listeners as a (time, version) pair. -/
structure SMState where
  ultimaNotificacion : Option ℚ
  notificacionPendiente : Option ℚ
  version : Nat
  delivered : List (ℚ × Nat)
deriving DecidableEq, Repr

/-- State of a fresh `StateManager` (constructor: `_ultimaNotificacion` and
`_notificacionPendiente` both null). -/
def smInit : SMState :=
  { ultimaNotificacion := none, notificacionPendiente := none, version := 0, delivered := [] }

/-- Delivery tail of `notify`: stamps `_ultimaNotificacion` with the current
clock and hands the current snapshot to the listeners. -/
def smDeliver (s : SMState) (t : ℚ) : SMState :=
  { s with ultimaNotificacion := some t, delivered := s.delivered ++ [(t, s.version)] }

/-- Embeds `StateManager.notify(force)` invoked at clock `t` (the
`performance.now()` value).  Inside the 50 ms window a non-forced request
replaces any pending deferred flush by one scheduled at `t + 50`
(`clearTimeout` + `setTimeout(…, 50)`) and delivers nothing; otherwise the
snapshot is delivered at once.  A stored timestamp of exactly 0 is falsy in
JS, hence the explicit `u ≠ 0` conjunct in the window test. -/
def smVentana (ultima : Option ℚ) (t : ℚ) : Bool :=
  match ultima with
  | some u => !(u == 0) && decide (t - u < 50)
  | none => false

def smNotify (s : SMState) (t : ℚ) (force : Bool) : SMState :=
  if !force && smVentana s.ultimaNotificacion t then
    { s with notificacionPendiente := some (t + 50) }
  else smDeliver s t

/-- The deferred-flush timer firing at its scheduled time `t`: the callback
nulls `_notificacionPendiente` and calls `notify(true)`. -/
def smFire (s : SMState) (t : ℚ) : SMState :=
  smNotify { s with notificacionPendiente := none } t true

/-- Processes a time-ordered list of external notify requests
(time, force) against the single-threaded event loop: a pending deferred
flush due at or before the next request fires first; each external request
bumps the state version (the state changed, hence the notify); a flush
still pending after the last request fires at its scheduled time. -/
def smProcess (s : SMState) : List (ℚ × Bool) → SMState
  | [] =>
    (match s.notificacionPendiente with
     | some f => smFire s f
     | none => s)
  | (t, force) :: rest =>
    let s1 := match s.notificacionPendiente with
      | some f => if f ≤ t then smFire s f else s
      | none => s
    smProcess (smNotify { s1 with version := s1.version + 1 } t force) rest

/-- Claim C7: a non-forced notify inside the 50 ms window delivers nothing
and (re)schedules exactly one deferred flush at `t + 50`, replacing any
pending one; a deferred flush delivers exactly one snapshot carrying the
version current at flush time; and 10 notify requests issued 1 ms apart
against a fresh manager deliver exactly 2 snapshots — the window-open one
and one trailing flush carrying the most recent state. -/
theorem C7_notify_throttle :
    (∀ (s : SMState) (t u : ℚ), s.ultimaNotificacion = some u → u ≠ 0 → t - u < 50 →
      (smNotify s t false).delivered = s.delivered ∧
      (smNotify s t false).notificacionPendiente = some (t + 50) ∧
      (smNotify s t false).ultimaNotificacion = s.ultimaNotificacion ∧
      (smNotify s t false).version = s.version) ∧
    (∀ (s : SMState) (f : ℚ),
      (smFire s f).delivered = s.delivered ++ [(f, s.version)] ∧
      (smFire s f).notificacionPendiente = none ∧
      (smFire s f).ultimaNotificacion = some f) ∧
    (smProcess smInit [(1000, false), (1001, false), (1002, false), (1003, false),
        (1004, false), (1005, false), (1006, false), (1007, false), (1008, false),
        (1009, false)]).delivered =
      [(1000, 1), (1059, 10)] := by
  refine ⟨?_, ?_, ?_⟩
  · intro s t u hu h0 hw
    have hcond : (!false && smVentana s.ultimaNotificacion t) = true := by
      rw [hu]
      simp [smVentana, h0, hw]
    unfold smNotify
    rw [if_pos hcond]
    exact ⟨rfl, rfl, rfl, rfl⟩
  · intro s f
    have hcond : (!true && smVentana s.ultimaNotificacion f) = false := by
      simp
    unfold smFire smNotify
    rw [if_neg (by simp)]
    exact ⟨rfl, rfl, rfl⟩
  · norm_num [smProcess, smNotify, smFire, smDeliver, smVentana, smInit]

/-- Manager that last delivered version 3 at t = 1000 and holds a pending
flush scheduled for t = 1040, with state version 7 (example state). -/
def smEjemplo : SMState :=
  { ultimaNotificacion := some 1000, notificacionPendiente := some 1040,
    version := 7, delivered := [(1000, 3)] }

/-- Witness for C7: a throttled notify at t = 1030 against `smEjemplo`
replaces the pending flush scheduled for 1040 by one at 1080 and delivers
nothing; firing a pending flush delivers the version-7 snapshot. -/
theorem C7_notify_throttle_witness :
    ((smNotify smEjemplo 1030 false).delivered = [(1000, 3)] ∧
     (smNotify smEjemplo 1030 false).notificacionPendiente = some 1080) ∧
    (smFire smEjemplo 1080).delivered = [(1000, 3), (1080, 7)] := by
  have h1 := C7_notify_throttle.1 smEjemplo 1030 1000 rfl (by norm_num) (by norm_num)
  have h2 := C7_notify_throttle.2.1 smEjemplo 1080
  refine ⟨⟨h1.1, ?_⟩, h2.1⟩
  rw [h1.2.1]
  norm_num

theorem crearMapa_aux {α : Type} :
    ∀ (l : List (NodoC α)) (acc : Nat → Option (NodoC α)) (i : Nat),
      (l.foldl (fun acc n => fun j => if j = n.id then some n else acc j) acc) i =
      (match l.reverse.find? (fun n => n.id = i) with
       | some n => some n
       | none => acc i) := by
  intro l
  induction l with
  | nil =>
    intro acc i
    simp
  | cons n t ih =>
    intro acc i
    simp only [List.foldl_cons, List.reverse_cons, List.find?_append]
    rw [ih]
    rcases hfind : t.reverse.find? (fun m => m.id = i) with _ | m
    · by_cases hid : i = n.id
      · subst hid
        simp [hfind, List.find?, Option.or]
      · have hid' : ¬ (n.id = i) := fun hcontra => hid hcontra.symm
        simp [hfind, List.find?, hid, hid', Option.or]
    · simp [hfind, Option.or]

theorem crearMapaNodos_eq_find {α : Type} (nodos : List (NodoC α)) (i : Nat) :
    crearMapaNodos nodos i = nodos.reverse.find? (fun n => n.id = i) := by
  unfold crearMapaNodos
  rw [crearMapa_aux]
  rcases h : nodos.reverse.find? (fun n => n.id = i) with _ | m <;> rw [h]

theorem asignarColores_eq_find {α : Type} (nodos : List (NodoC α)) (i : Nat) :
    asignarColores nodos i =
      (match nodos.reverse.find? (fun n => n.id = i) with
       | some n => n.color
       | none => none) := by
  unfold asignarColores
  rw [asignar_aux]

theorem crear_some_datos {α : Type} {nodos : List (NodoC α)} {i : Nat} {n : NodoC α}
    (h : crearMapaNodos nodos i = some n) :
    n.id = i ∧ n ∈ nodos ∧ asignarColores nodos i = n.color := by
  rw [crearMapaNodos_eq_find] at h
  refine ⟨by simpa using List.find?_some h, List.mem_reverse.mp (List.mem_of_find?_eq_some h), ?_⟩
  rw [asignarColores_eq_find, h]

theorem crear_some_of_any {α : Type} {nodos : List (NodoC α)} {i : Nat}
    (h : nodos.any (fun n => n.id = i) = true) :
    ∃ n, crearMapaNodos nodos i = some n := by
  rw [crearMapaNodos_eq_find]
  obtain ⟨n, hn, hp⟩ := List.any_eq_true.mp h
  have : (nodos.reverse.find? (fun n => n.id = i)).isSome = true :=
    List.find?_isSome.mpr ⟨n, List.mem_reverse.mpr hn, hp⟩
  rcases hf : nodos.reverse.find? (fun n => n.id = i) with _ | m
  · rw [hf] at this
    cases this
  · exact ⟨m, hf⟩

theorem any_of_crear_some {α : Type} {nodos : List (NodoC α)} {i : Nat} {n : NodoC α}
    (h : crearMapaNodos nodos i = some n) :
    nodos.any (fun m => m.id = i) = true := by
  obtain ⟨h1, h2, _⟩ := crear_some_datos h
  exact List.any_eq_true.mpr ⟨n, h2, by simp [h1]⟩

theorem crear_none_of_any_false {α : Type} {nodos : List (NodoC α)} {i : Nat}
    (h : nodos.any (fun n => n.id = i) = false) :
    crearMapaNodos nodos i = none := by
  rcases hf : crearMapaNodos nodos i with _ | m
  · rfl
  · rw [any_of_crear_some hf] at h
    cases h

/-- Specification-side conflict predicate over an explicit color map: both
endpoints are existing nodes and hold equal non-null colors. -/
def conflictoB {α : Type} [DecidableEq α] (nodos : List (NodoC α)) (colors : ColorMap α)
    (a : Edge) : Bool :=
  nodos.any (fun n => n.id = a.sourceId) && nodos.any (fun n => n.id = a.targetId) &&
    (match colors a.sourceId, colors a.targetId with
     | some c1, some c2 => c1 = c2
     | _, _ => false)

theorem crear_mutados {α : Type} [DecidableEq α] (nodos : List (NodoC α))
    (colors : ColorMap α) (i : Nat) :
    crearMapaNodos (nodos.map (fun n => { n with color := colors n.id })) i =
      (crearMapaNodos nodos i).map (fun n => { n with color := colors n.id }) := by
  rw [crearMapaNodos_eq_find, crearMapaNodos_eq_find, ← List.map_reverse]
  rw [List.find?_map]
  rfl

theorem esConflicto_mutados {α : Type} [DecidableEq α] (nodos : List (NodoC α))
    (colors : ColorMap α) (a : Edge) :
    esConflicto a (crearMapaNodos (nodos.map (fun n => { n with color := colors n.id }))) =
      conflictoB nodos colors a := by
  unfold esConflicto conflictoB
  rw [crear_mutados, crear_mutados]
  rcases hs : crearMapaNodos nodos a.sourceId with _ | ns
  · have hany : nodos.any (fun n => n.id = a.sourceId) = false := by
      rcases hA : nodos.any (fun n => n.id = a.sourceId) with _ | _
      · rfl
      · obtain ⟨n, hn⟩ := crear_some_of_any hA
        rw [hn] at hs
        cases hs
    simp [hany]
  · rcases ht : crearMapaNodos nodos a.targetId with _ | nt
    · have hany : nodos.any (fun n => n.id = a.targetId) = false := by
        rcases hA : nodos.any (fun n => n.id = a.targetId) with _ | _
        · rfl
        · obtain ⟨n, hn⟩ := crear_some_of_any hA
          rw [hn] at ht
          cases ht
      simp [hany]
    · obtain ⟨hs1, _, _⟩ := crear_some_datos hs
      obtain ⟨ht1, _, _⟩ := crear_some_datos ht
      rw [any_of_crear_some hs, any_of_crear_some ht]
      simp [hs1, ht1]

theorem obtener_eq_filter {α : Type} [DecidableEq α] (nodos : List (NodoC α))
    (aristas : List Edge) :
    obtenerAristasConflicto nodos aristas =
      aristas.filter (fun a => esConflicto a (crearMapaNodos nodos)) := by
  unfold obtenerAristasConflicto
  have hid : (fun (a : Edge) => ({ sourceId := a.sourceId, targetId := a.targetId } : Edge)) =
      id := by
    funext a
    rfl
  rw [hid, List.map_id]

/-- The conflict edges the optimizer would compute for its current private
assignment (specification-side abbreviation for the `actualizarConflictos`
recomputation). -/
def conflictosActuales {α : Type} [DecidableEq α] (s : LSState α) : List Edge :=
  obtenerAristasConflicto (s.nodos.map (fun n => { n with color := s.colors n.id })) s.aristas

theorem conflictosActuales_eq_filter {α : Type} [DecidableEq α] (s : LSState α) :
    conflictosActuales s = s.aristas.filter (conflictoB s.nodos s.colors) := by
  unfold conflictosActuales
  rw [obtener_eq_filter]
  exact List.filter_congr (fun a _ => esConflicto_mutados s.nodos s.colors a)

theorem conflictosActuales_map_indep {α : Type} [DecidableEq α] (s : LSState α)
    (colors : ColorMap α) (nodos : List (NodoC α)) (hn : s.nodos = nodos)
    (hc : s.colors = colors) :
    conflictosActuales s = s.aristas.filter (conflictoB nodos colors) := by
  rw [conflictosActuales_eq_filter, hn, hc]

theorem countP_split {β : Type} (p q : β → Bool) (l : List β) :
    l.countP p = (l.countP fun a => q a && p a) + (l.countP fun a => !q a && p a) := by
  induction l with
  | nil => simp
  | cons b t ih =>
    rcases hq : q b with _ | _ <;> rcases hp : p b with _ | _ <;>
      simp [List.countP_cons, hq, hp, ih] <;> omega

theorem contar_eq_countP {α : Type} [DecidableEq α] (v : Nat) (col : Option α)
    (aristas : List Edge) (colors : ColorMap α) :
    contarConflictosConColor v col aristas colors =
      aristas.countP (fun a => esVecino a v &&
        decide (colors (if a.sourceId = v then a.targetId else a.sourceId) = col)) := by
  unfold contarConflictosConColor
  rw [← List.countP_eq_length_filter, List.countP_map, List.countP_filter]
  refine List.countP_congr ?_
  intro a _
  simp [Function.comp, Bool.and_comm]

theorem conflictoB_no_incidente {α : Type} [DecidableEq α] (nodos : List (NodoC α))
    (colors : ColorMap α) (v : Nat) (nuevo : Option α) (a : Edge)
    (h : esVecino a v = false) :
    conflictoB nodos (fun id => if id = v then nuevo else colors id) a =
      conflictoB nodos colors a := by
  have hsv : ¬ (a.sourceId = v) := by
    intro hcontra
    rw [esVecino, hcontra] at h
    simp at h
  have htv : ¬ (a.targetId = v) := by
    intro hcontra
    rw [esVecino, hcontra] at h
    simp at h
  unfold conflictoB
  have h1 : (fun id => if id = v then nuevo else colors id) a.sourceId = colors a.sourceId := by
    simp [hsv]
  have h2 : (fun id => if id = v then nuevo else colors id) a.targetId = colors a.targetId := by
    simp [htv]
  rw [h1, h2]

theorem conflictoB_incidente {α : Type} [DecidableEq α] (nodos : List (NodoC α))
    (m : ColorMap α) (v : Nat) (w : α) (a : Edge)
    (hvec : esVecino a v = true)
    (hv : nodos.any (fun n => n.id = v) = true)
    (hmv : m v = some w)
    (hdom : ∀ id, m id ≠ none → nodos.any (fun n => n.id = id) = true) :
    conflictoB nodos m a =
      decide (m (if a.sourceId = v then a.targetId else a.sourceId) = some w) := by
  unfold conflictoB
  by_cases hsv : a.sourceId = v
  · rw [if_pos hsv, hsv, hmv]
    rcases hct : m a.targetId with _ | c
    · simp [hct]
    · by_cases hc : c = w
      · subst hc
        have hany : nodos.any (fun n => n.id = a.targetId) = true := by
          refine hdom a.targetId ?_
          rw [hct]
          simp
        simp [hv, hany, hct]
      · have hc' : ¬ (w = c) := fun hcontra => hc hcontra.symm
        simp [hct, hc, hc']
  · have htv : a.targetId = v := by
      rw [esVecino] at hvec
      rcases Bool.or_eq_true_iff.mp hvec with h1 | h1
      · exact absurd (by simpa using h1) hsv
      · simpa using h1
    rw [if_neg hsv, htv, hmv]
    rcases hcs : m a.sourceId with _ | c
    · simp [hcs]
    · by_cases hc : c = w
      · subst hc
        have hany : nodos.any (fun n => n.id = a.sourceId) = true := by
          refine hdom a.sourceId ?_
          rw [hcs]
          simp
        simp [hv, hany, hcs]
      · have hc' : ¬ (w = c) := fun hcontra => hc hcontra.symm
        simp [hcs, hc, hc']

theorem recolor_decrece {α : Type} [DecidableEq α] (nodos : List (NodoC α))
    (aristas : List Edge) (colors : ColorMap α) (v : Nat) (oldc newc : α)
    (hself : ∀ a ∈ aristas, a.sourceId ≠ a.targetId)
    (hv : nodos.any (fun n => n.id = v) = true)
    (hdom : ∀ id, colors id ≠ none → nodos.any (fun n => n.id = id) = true)
    (hcur : colors v = some oldc)
    (hcnt : contarConflictosConColor v (some newc) aristas colors <
            contarConflictosConColor v (some oldc) aristas colors) :
    (aristas.filter (conflictoB nodos (fun id => if id = v then some newc else colors id))).length <
      (aristas.filter (conflictoB nodos colors)).length := by
  have hupdv : (fun id => if id = v then some newc else colors id) v = some newc := by simp
  have hdomu : ∀ id, (fun id => if id = v then some newc else colors id) id ≠ none →
      nodos.any (fun n => n.id = id) = true := by
    intro id hne
    by_cases hid : id = v
    · rw [hid]
      exact hv
    · refine hdom id ?_
      simpa [hid] using hne
  have hincid_new : ∀ a ∈ aristas, esVecino a v = true →
      conflictoB nodos (fun id => if id = v then some newc else colors id) a =
        decide (colors (if a.sourceId = v then a.targetId else a.sourceId) = some newc) := by
    intro a ha hvec
    rw [conflictoB_incidente nodos _ v newc a hvec hv hupdv hdomu]
    have huv : (if a.sourceId = v then a.targetId else a.sourceId) ≠ v := by
      by_cases hsv : a.sourceId = v
      · rw [if_pos hsv]
        exact fun hcontra => (hself a ha) (by rw [hsv, hcontra])
      · rw [if_neg hsv]
        exact hsv
    simp [huv]
  have hincid_old : ∀ a ∈ aristas, esVecino a v = true →
      conflictoB nodos colors a =
        decide (colors (if a.sourceId = v then a.targetId else a.sourceId) = some oldc) := by
    intro a _ hvec
    exact conflictoB_incidente nodos colors v oldc a hvec hv hcur hdom
  rw [← List.countP_eq_length_filter, ← List.countP_eq_length_filter]
  rw [countP_split (conflictoB nodos colors) (fun a => esVecino a v) aristas]
  rw [countP_split (conflictoB nodos (fun id => if id = v then some newc else colors id))
    (fun a => esVecino a v) aristas]
  have e1 : (aristas.countP fun a => esVecino a v &&
      conflictoB nodos (fun id => if id = v then some newc else colors id) a) =
      contarConflictosConColor v (some newc) aristas colors := by
    rw [contar_eq_countP]
    refine List.countP_congr ?_
    intro a ha
    rcases hvec : esVecino a v with _ | _
    · simp [hvec]
    · simp [hvec, hincid_new a ha hvec]
  have e2 : (aristas.countP fun a => esVecino a v && conflictoB nodos colors a) =
      contarConflictosConColor v (some oldc) aristas colors := by
    rw [contar_eq_countP]
    refine List.countP_congr ?_
    intro a ha
    rcases hvec : esVecino a v with _ | _
    · simp [hvec]
    · simp [hvec, hincid_old a ha hvec]
  have e3 : (aristas.countP fun a => !esVecino a v &&
      conflictoB nodos (fun id => if id = v then some newc else colors id) a) =
      (aristas.countP fun a => !esVecino a v && conflictoB nodos colors a) := by
    refine List.countP_congr ?_
    intro a _
    rcases hvec : esVecino a v with _ | _
    · simp [hvec, conflictoB_no_incidente nodos colors v (some newc) a hvec]
    · simp [hvec]
  rw [e1, e2, e3]
  omega

theorem insertSet_length (l : List Nat) (x : Nat) :
    (insertSet l x).length ≤ l.length + 1 := by
  unfold insertSet
  split
  · omega
  · simp

theorem insertSet_ne_nil (l : List Nat) (x : Nat) : insertSet l x ≠ [] := by
  unfold insertSet
  split
  · intro hcontra
    subst hcontra
    simp_all
  · simp

theorem mem_insertSet {l : List Nat} {x y : Nat} (h : y ∈ insertSet l x) :
    y ∈ l ∨ y = x := by
  unfold insertSet at h
  split at h
  · exact Or.inl h
  · rcases List.mem_append.mp h with hm | hm
    · exact Or.inl hm
    · exact Or.inr (by simpa using hm)

theorem nodosDeAristas_aux_mem :
    ∀ (edges : List Edge) (acc : List Nat) (y : Nat),
      y ∈ edges.foldl (fun acc edge => insertSet (insertSet acc edge.sourceId) edge.targetId) acc →
      y ∈ acc ∨ ∃ e ∈ edges, y = e.sourceId ∨ y = e.targetId := by
  intro edges
  induction edges with
  | nil =>
    intro acc y h
    exact Or.inl h
  | cons e t ih =>
    intro acc y h
    rcases ih _ y h with hacc | ⟨e', he', hv⟩
    · rcases mem_insertSet hacc with h2 | h2
      · rcases mem_insertSet h2 with h3 | h3
        · exact Or.inl h3
        · exact Or.inr ⟨e, by simp, Or.inl h3⟩
      · exact Or.inr ⟨e, by simp, Or.inr h2⟩
    · exact Or.inr ⟨e', by simp [he'], hv⟩

theorem nodosDeAristas_mem {edges : List Edge} {y : Nat} (h : y ∈ nodosDeAristas edges) :
    ∃ e ∈ edges, y = e.sourceId ∨ y = e.targetId := by
  rcases nodosDeAristas_aux_mem edges [] y h with hacc | hm
  · cases hacc
  · exact hm

theorem nodosDeAristas_aux_length :
    ∀ (edges : List Edge) (acc : List Nat),
      (edges.foldl (fun acc edge => insertSet (insertSet acc edge.sourceId) edge.targetId) acc).length ≤
        acc.length + 2 * edges.length := by
  intro edges
  induction edges with
  | nil =>
    intro acc
    simp
  | cons e t ih =>
    intro acc
    have h1 := ih (insertSet (insertSet acc e.sourceId) e.targetId)
    have h2 := insertSet_length (insertSet acc e.sourceId) e.targetId
    have h3 := insertSet_length acc e.sourceId
    simp only [List.foldl_cons, List.length_cons]
    omega

theorem nodosDeAristas_length (edges : List Edge) :
    (nodosDeAristas edges).length ≤ 2 * edges.length := by
  have := nodosDeAristas_aux_length edges []
  simpa [nodosDeAristas] using this

theorem nodosDeAristas_aux_ne_nil :
    ∀ (edges : List Edge) (acc : List Nat), acc ≠ [] →
      edges.foldl (fun acc edge => insertSet (insertSet acc edge.sourceId) edge.targetId) acc ≠ [] := by
  intro edges
  induction edges with
  | nil =>
    intro acc h
    exact h
  | cons e t ih =>
    intro acc _
    exact ih _ (insertSet_ne_nil _ _)

theorem nodosDeAristas_ne_nil {edges : List Edge} (h : edges ≠ []) :
    nodosDeAristas edges ≠ [] := by
  rcases edges with _ | ⟨e, t⟩
  · exact absurd rfl h
  · unfold nodosDeAristas
    simp only [List.foldl_cons]
    exact nodosDeAristas_aux_ne_nil t _ (insertSet_ne_nil _ _)

theorem wasImproved_iff {α : Type} [DecidableEq α] (s : LSState α) (nodeId : Nat) :
    (encontrarMejorColor s nodeId).wasImproved = true ↔
      (encontrarMejorColor s nodeId).bestColor ≠ s.colors nodeId := by
  simp [encontrarMejorColor]

theorem mejor_estricto {α : Type} [DecidableEq α] (s : LSState α) (nodeId : Nat)
    (himp : (encontrarMejorColor s nodeId).wasImproved = true) :
    ∃ bc, (encontrarMejorColor s nodeId).bestColor = some bc ∧
      contarConflictosConColor nodeId (some bc) s.aristas s.colors <
        contarConflictosConColor nodeId (s.colors nodeId) s.aristas s.colors := by
  obtain ⟨h1, h2, h3, h4, h5⟩ := encontrar_buenAcc s nodeId
  have hne : (encontrarMejorColor s nodeId).bestColor ≠ s.colors nodeId :=
    (wasImproved_iff s nodeId).mp himp
  rcases h5 with hcur | ⟨c, hm, hv⟩
  · exact absurd hcur hne
  · refine ⟨c, hv, ?_⟩
    have hnotall : ¬ (∀ c' ∈ s.colorPalette, some c' ≠ s.colors nodeId →
        contarConflictosConColor nodeId (s.colors nodeId) s.aristas s.colors ≤
          contarConflictosConColor nodeId (some c') s.aristas s.colors) :=
      fun hall => hne (h4.mpr hall)
    push_neg at hnotall
    obtain ⟨c', hm', hne', hlt'⟩ := hnotall
    have hb : (encontrarMejorColor s nodeId).minimumConflicts ≤
        contarConflictosConColor nodeId (some c') s.aristas s.colors := h3 c' hm' hne'
    have hcb : contarConflictosConColor nodeId
        ((encontrarMejorColor s nodeId).bestColor) s.aristas s.colors =
        (encontrarMejorColor s nodeId).minimumConflicts := h1
    have hv' : (encontrarMejorColor s nodeId).bestColor = some c := hv
    rw [hv'] at hcb
    omega

theorem obtener_mutados_eq_filter {α : Type} [DecidableEq α] (nodos : List (NodoC α))
    (colors : ColorMap α) (aristas : List Edge) :
    obtenerAristasConflicto (nodos.map (fun n => { n with color := colors n.id })) aristas =
      aristas.filter (conflictoB nodos colors) := by
  rw [obtener_eq_filter]
  exact List.filter_congr (fun a _ => esConflicto_mutados nodos colors a)

theorem mem_drop_of_get? {l : List Nat} {i x : Nat} (h : l.get? i = some x) :
    x ∈ l.drop i := by
  have h0 : (l.drop i).get? 0 = some x := by
    rw [List.get?_drop]
    simpa using h
  exact List.get?_mem h0

theorem drop_succ_subset (l : List Nat) (i : Nat) : l.drop (i + 1) ⊆ l.drop i := by
  intro x hx
  have : l.drop (i + 1) = (l.drop i).drop 1 := by
    rw [List.drop_drop]
  rw [this] at hx
  exact List.drop_subset 1 (l.drop i) hx

/-- Well-formedness invariant of a `LocalSearch` state: unique node ids, no
self-loops, the cached conflict set consistent with the private assignment,
every still-queued node an existing colored node, the assignment's domain
inside the node set, the queue bounded by twice the edge count, and the
recolor/conflict accounting against the initial conflict count. -/
def WF {α : Type} [DecidableEq α] (s : LSState α) : Prop :=
  (s.nodos.map (fun n => n.id)).Nodup ∧
  (∀ a ∈ s.aristas, a.sourceId ≠ a.targetId) ∧
  s.conflictEdges = s.aristas.filter (conflictoB s.nodos s.colors) ∧
  (∀ id ∈ s.conflictingNodes.drop s.currentIndex,
      s.nodos.any (fun n => n.id = id) = true ∧ ∃ c, s.colors id = some c) ∧
  (∀ id, s.colors id ≠ none → s.nodos.any (fun n => n.id = id) = true) ∧
  s.conflictingNodes.length ≤ 2 * s.aristas.length ∧
  s.totalRecoloredCount + s.conflictEdges.length ≤ s.initialConflicts ∧
  s.initialConflicts ≤ s.aristas.length

theorem ac_conflictEdges {α : Type} [DecidableEq α] (t : LSState α) :
    (actualizarConflictos t).conflictEdges = t.aristas.filter (conflictoB t.nodos t.colors) :=
  obtener_mutados_eq_filter t.nodos t.colors t.aristas

theorem procesar_wf_decrece {α : Type} [DecidableEq α] (s : LSState α)
    (hwf : WF s) (hdone : s.done = false)
    (hlt : s.currentIndex < s.conflictingNodes.length) :
    WF (LocalSearch.procesarNodo s) ∧
    (LocalSearch.procesarNodo s).done = false ∧
    (LocalSearch.procesarNodo s).conflictingNodes = s.conflictingNodes ∧
    (LocalSearch.procesarNodo s).currentIndex = s.currentIndex + 1 ∧
    (LocalSearch.procesarNodo s).aristas = s.aristas ∧
    ((LocalSearch.procesarNodo s).conflictEdges.length < s.conflictEdges.length ∨
     ((LocalSearch.procesarNodo s).conflictEdges.length = s.conflictEdges.length ∧
      (LocalSearch.procesarNodo s).recoloredCount = s.recoloredCount)) := by
  obtain ⟨hnd, hself, hcons, hqueue, hdom, hlen, hacct, hinit⟩ := hwf
  obtain ⟨nodeId, hget⟩ : ∃ x, s.conflictingNodes.get? s.currentIndex = some x :=
    ⟨_, List.get?_eq_get hlt⟩
  obtain ⟨hqany, oldc, hqcol⟩ : s.nodos.any (fun n => n.id = nodeId) = true ∧
      ∃ c, s.colors nodeId = some c := by
    obtain ⟨h1, h2⟩ := hqueue nodeId (mem_drop_of_get? hget)
    exact ⟨h1, h2⟩
  unfold LocalSearch.procesarNodo
  simp only [hget]
  by_cases himp : (encontrarMejorColor s nodeId).wasImproved = true
  · -- the node is recolored: the private conflict count strictly drops
    obtain ⟨bc, hbc, hcnt⟩ := mejor_estricto s nodeId himp
    simp only [himp, if_true]
    have hnuevos : (fun id => if id = nodeId then (encontrarMejorColor s nodeId).bestColor
        else s.colors id) = (fun id => if id = nodeId then some bc else s.colors id) := by
      funext id
      rw [hbc]
    have hdec : (s.aristas.filter (conflictoB s.nodos
        (fun id => if id = nodeId then some bc else s.colors id))).length <
        (s.aristas.filter (conflictoB s.nodos s.colors)).length := by
      refine recolor_decrece s.nodos s.aristas s.colors nodeId oldc bc hself hqany hdom hqcol ?_
      rw [← hqcol]
      exact hcnt
    have hnodos : (actualizarConflictos
        { s with colors := fun id => if id = nodeId then (encontrarMejorColor s nodeId).bestColor else s.colors id,
                 recoloredCount := s.recoloredCount + 1,
                 totalRecoloredCount := s.totalRecoloredCount + 1,
                 recoloredNodes := s.recoloredNodes ++ [(nodeId, s.colors nodeId, (encontrarMejorColor s nodeId).bestColor)],
                 currentIndex := s.currentIndex + 1 }).nodos = s.nodos :=
      actualizarConflictos_nodos _ hnd
    have hce : (actualizarConflictos
        { s with colors := fun id => if id = nodeId then (encontrarMejorColor s nodeId).bestColor else s.colors id,
                 recoloredCount := s.recoloredCount + 1,
                 totalRecoloredCount := s.totalRecoloredCount + 1,
                 recoloredNodes := s.recoloredNodes ++ [(nodeId, s.colors nodeId, (encontrarMejorColor s nodeId).bestColor)],
                 currentIndex := s.currentIndex + 1 }).conflictEdges =
        s.aristas.filter (conflictoB s.nodos
          (fun id => if id = nodeId then some bc else s.colors id)) := by
      rw [ac_conflictEdges]
      show s.aristas.filter (conflictoB s.nodos
        (fun id => if id = nodeId then (encontrarMejorColor s nodeId).bestColor else s.colors id)) = _
      rw [hnuevos]
    have hcelen : s.conflictEdges.length =
        (s.aristas.filter (conflictoB s.nodos s.colors)).length := congrArg List.length hcons
    refine ⟨⟨?_, ?_, ?_, ?_, ?_, ?_, ?_, ?_⟩, hdone, rfl, rfl, rfl, ?_⟩
    · rw [hnodos]
      exact hnd
    · exact hself
    · rw [hce, hnodos]
      show _ = s.aristas.filter (conflictoB s.nodos
        (fun id => if id = nodeId then (encontrarMejorColor s nodeId).bestColor else s.colors id))
      rw [hnuevos]
    · intro id hid
      rw [hnodos]
      have hid' : id ∈ s.conflictingNodes.drop (s.currentIndex + 1) := hid
      have hmem := drop_succ_subset s.conflictingNodes s.currentIndex hid'
      obtain ⟨h1, c, h2⟩ := hqueue id hmem
      refine ⟨h1, ?_⟩
      show ∃ c, (if id = nodeId then (encontrarMejorColor s nodeId).bestColor else s.colors id) = some c
      by_cases hidv : id = nodeId
      · rw [if_pos hidv, hbc]
        exact ⟨bc, rfl⟩
      · rw [if_neg hidv]
        exact ⟨c, h2⟩
    · intro id hne
      rw [hnodos]
      have hne' : (if id = nodeId then (encontrarMejorColor s nodeId).bestColor else s.colors id) ≠
          none := hne
      by_cases hidv : id = nodeId
      · rw [hidv]
        exact hqany
      · rw [if_neg hidv] at hne'
        exact hdom id hne'
    · exact hlen
    · rw [hce]
      show s.totalRecoloredCount + 1 + _ ≤ s.initialConflicts
      omega
    · exact hinit
    · left
      rw [hce, hcelen]
      exact hdec
  · -- no better color: only the index advances, conflicts are unchanged
    rw [Bool.not_eq_true] at himp
    simp only [himp, Bool.false_eq_true, if_false]
    have hnodos : (actualizarConflictos { s with currentIndex := s.currentIndex + 1 }).nodos =
        s.nodos := actualizarConflictos_nodos _ hnd
    have hce : (actualizarConflictos { s with currentIndex := s.currentIndex + 1 }).conflictEdges =
        s.aristas.filter (conflictoB s.nodos s.colors) := ac_conflictEdges _
    have hcelen : s.conflictEdges.length =
        (s.aristas.filter (conflictoB s.nodos s.colors)).length := congrArg List.length hcons
    refine ⟨⟨?_, ?_, ?_, ?_, ?_, ?_, ?_, ?_⟩, hdone, rfl, rfl, rfl, ?_⟩
    · rw [hnodos]
      exact hnd
    · exact hself
    · rw [hce, hnodos]
      rfl
    · intro id hid
      rw [hnodos]
      have hid' : id ∈ s.conflictingNodes.drop (s.currentIndex + 1) := hid
      exact hqueue id (drop_succ_subset s.conflictingNodes s.currentIndex hid')
    · intro id hne
      rw [hnodos]
      exact hdom id hne
    · exact hlen
    · rw [hce]
      show s.totalRecoloredCount + _ ≤ s.initialConflicts
      omega
    · exact hinit
    · right
      rw [hce, hcelen]
      exact ⟨rfl, rfl⟩

theorem step_hecho {α : Type} [DecidableEq α] (s : LSState α) (h : s.done = true) :
    LocalSearch.step s = s := by
  simp [LocalSearch.step, h]

theorem step_en_pase {α : Type} [DecidableEq α] (s : LSState α) (hdone : s.done = false)
    (hlt : s.currentIndex < s.conflictingNodes.length) :
    LocalSearch.step s = LocalSearch.procesarNodo s := by
  have hge : ¬ (s.currentIndex ≥ s.conflictingNodes.length) := Nat.not_le.mpr hlt
  simp only [LocalSearch.step, hdone, Bool.false_eq_true, if_false, if_neg hge]

theorem step_para_conflictos_cero {α : Type} [DecidableEq α] (s : LSState α)
    (hdone : s.done = false) (hge : s.currentIndex ≥ s.conflictingNodes.length)
    (hce : s.conflictEdges.length = 0) :
    LocalSearch.step s = { s with done := true } := by
  simp [LocalSearch.step, hdone, hge, hce]

theorem step_para_sin_recoloreo {α : Type} [DecidableEq α] (s : LSState α)
    (hdone : s.done = false) (hge : s.currentIndex ≥ s.conflictingNodes.length)
    (hce : s.conflictEdges.length ≠ 0) (hrc : s.recoloredCount = 0) :
    LocalSearch.step s = { s with done := true } := by
  simp [LocalSearch.step, hdone, hge, hce, hrc]

theorem step_nueva_pasada {α : Type} [DecidableEq α] (s : LSState α)
    (hdone : s.done = false) (hge : s.currentIndex ≥ s.conflictingNodes.length)
    (hce : s.conflictEdges.length ≠ 0) (hrc : s.recoloredCount ≠ 0) :
    LocalSearch.step s = LocalSearch.procesarNodo (actualizarNodosConflictivos
      { s with passNumber := s.passNumber + 1, currentIndex := 0, recoloredCount := 0 }) := by
  simp only [LocalSearch.step, hdone, Bool.false_eq_true, if_false, if_pos hge,
    if_neg hce, if_neg hrc, actualizar_nc_done]

theorem conflictoB_datos {α : Type} [DecidableEq α] {nodos : List (NodoC α)}
    {colors : ColorMap α} {a : Edge} (h : conflictoB nodos colors a = true) :
    nodos.any (fun n => n.id = a.sourceId) = true ∧
    nodos.any (fun n => n.id = a.targetId) = true ∧
    (∃ c, colors a.sourceId = some c) ∧ (∃ c, colors a.targetId = some c) := by
  unfold conflictoB at h
  rcases h1 : colors a.sourceId with _ | c1 <;> rcases h2 : colors a.targetId with _ | c2 <;>
    rw [h1, h2] at h <;> simp_all

theorem cola_de_conflictos {α : Type} [DecidableEq α] (nodos : List (NodoC α))
    (colors : ColorMap α) (aristas : List Edge) :
    ∀ id ∈ nodosDeAristas (aristas.filter (conflictoB nodos colors)),
      nodos.any (fun n => n.id = id) = true ∧ ∃ c, colors id = some c := by
  intro id hid
  obtain ⟨e, he, hv⟩ := nodosDeAristas_mem hid
  have hmem := List.mem_filter.mp he
  obtain ⟨h1, h2, h3, h4⟩ := conflictoB_datos hmem.2
  rcases hv with hv | hv
  · subst hv
    exact ⟨h1, h3⟩
  · subst hv
    exact ⟨h2, h4⟩

theorem dom_asignar {α : Type} (nodos : List (NodoC α)) :
    ∀ id, asignarColores nodos id ≠ none → nodos.any (fun n => n.id = id) = true := by
  intro id hne
  rw [asignarColores_eq_find] at hne
  rcases hf : nodos.reverse.find? (fun n => n.id = id) with _ | n
  · rw [hf] at hne
    simp at hne
  · have hn1 := List.find?_some hf
    have hn2 : n ∈ nodos := List.mem_reverse.mp (List.mem_of_find?_eq_some hf)
    exact List.any_eq_true.mpr ⟨n, hn2, by simpa using hn1⟩

/-- Termination measure for `LocalSearch.step`: the cached conflict count
doubled (plus one while the current pass has already recolored) dominates,
scaled past any possible queue length; the remaining queue breaks ties. -/
def medida {α : Type} [DecidableEq α] (s : LSState α) : Nat :=
  if s.done then 0
  else (2 * s.conflictEdges.length + (if s.recoloredCount = 0 then 0 else 1)) *
      (2 * s.aristas.length + 1) + (s.conflictingNodes.length - s.currentIndex) + 1

theorem medida_no_hecha {α : Type} [DecidableEq α] (s : LSState α) (h : s.done = false) :
    medida s = (2 * s.conflictEdges.length + (if s.recoloredCount = 0 then 0 else 1)) *
      (2 * s.aristas.length + 1) + (s.conflictingNodes.length - s.currentIndex) + 1 := by
  simp [medida, h]

theorem medida_hecha {α : Type} [DecidableEq α] (s : LSState α) (h : s.done = true) :
    medida s = 0 := by
  simp [medida, h]

theorem medida_outer_lt {a b c d K : Nat} (h : a < b) (hc : c < K) :
    a * K + c < b * K + d := by
  have h2 : a * K + K ≤ b * K := by
    calc a * K + K = (a + 1) * K := by ring
    _ ≤ b * K := Nat.mul_le_mul_right K h
  omega

theorem wf_total_le {α : Type} [DecidableEq α] (s : LSState α) (hwf : WF s) :
    s.totalRecoloredCount ≤ s.aristas.length := by
  obtain ⟨_, _, _, _, _, _, h7, h8⟩ := hwf
  omega

theorem paso_progreso {α : Type} [DecidableEq α] (s : LSState α)
    (hwf : WF s) (hdone : s.done = false) :
    WF (LocalSearch.step s) ∧ (LocalSearch.step s).aristas = s.aristas ∧
    medida (LocalSearch.step s) < medida s := by
  obtain ⟨hnd, hself, hcons, hqueue, hdom, hlen, hacct, hinit⟩ := hwf
  have hwf' : WF s := ⟨hnd, hself, hcons, hqueue, hdom, hlen, hacct, hinit⟩
  by_cases hge : s.currentIndex ≥ s.conflictingNodes.length
  · by_cases hce : s.conflictEdges.length = 0
    · rw [step_para_conflictos_cero s hdone hge hce]
      refine ⟨⟨hnd, hself, hcons, hqueue, hdom, hlen, hacct, hinit⟩, rfl, ?_⟩
      rw [medida_hecha _ rfl, medida_no_hecha s hdone]
      omega
    · by_cases hrc : s.recoloredCount = 0
      · rw [step_para_sin_recoloreo s hdone hge hce hrc]
        refine ⟨⟨hnd, hself, hcons, hqueue, hdom, hlen, hacct, hinit⟩, rfl, ?_⟩
        rw [medida_hecha _ rfl, medida_no_hecha s hdone]
        omega
      · -- completed pass with recolors and remaining conflicts: start a new pass
        have hne : s.conflictEdges ≠ [] := by
          intro hcontra
          rw [hcontra] at hce
          exact hce rfl
        rw [step_nueva_pasada s hdone hge hce hrc]
        set t := actualizarNodosConflictivos
          { s with passNumber := s.passNumber + 1, currentIndex := 0, recoloredCount := 0 } with ht
        have hwt : WF t := by
          refine ⟨hnd, hself, hcons, ?_, hdom, ?_, hacct, hinit⟩
          · intro id hid
            have hid' : id ∈ nodosDeAristas s.conflictEdges := hid
            rw [hcons] at hid'
            exact cola_de_conflictos s.nodos s.colors s.aristas id hid'
          · show (nodosDeAristas s.conflictEdges).length ≤ 2 * s.aristas.length
            have hce_le : s.conflictEdges.length ≤ s.aristas.length := by
              rw [hcons]
              exact List.length_filter_le _ _
            have h1 := nodosDeAristas_length s.conflictEdges
            omega
        have htdone : t.done = false := hdone
        have htlt : t.currentIndex < t.conflictingNodes.length := by
          show 0 < (nodosDeAristas s.conflictEdges).length
          exact List.length_pos.mpr (nodosDeAristas_ne_nil hne)
        obtain ⟨hwu, hu_done, hu_queue, hu_ci, hu_ar, hu_dec⟩ :=
          procesar_wf_decrece t hwt htdone htlt
        have har2 : t.aristas = s.aristas := rfl
        have hce2 : t.conflictEdges = s.conflictEdges := rfl
        have hq2 : t.conflictingNodes = nodosDeAristas s.conflictEdges := rfl
        have hci2 : t.currentIndex = 0 := rfl
        have hrc2 : t.recoloredCount = 0 := rfl
        refine ⟨hwu, hu_ar.trans har2, ?_⟩
        rw [medida_no_hecha _ hu_done, medida_no_hecha s hdone]
        rw [hu_ar, har2, hu_queue, hq2, hu_ci, hci2]
        have hqlen : (nodosDeAristas s.conflictEdges).length ≤ 2 * s.aristas.length := by
          have hce_le : s.conflictEdges.length ≤ s.aristas.length := by
            rw [hcons]
            exact List.length_filter_le _ _
          have h1 := nodosDeAristas_length s.conflictEdges
          omega
        have hFs : (if s.recoloredCount = 0 then (0 : Nat) else 1) = 1 := if_neg hrc
        rw [hFs]
        rcases hu_dec with hlt2 | ⟨heq2, hrc3⟩
        · refine Nat.add_lt_add_right ?_ 1
          refine medida_outer_lt ?_ ?_
          · have hlt3 : (LocalSearch.procesarNodo t).conflictEdges.length <
                s.conflictEdges.length := by
              rw [← hce2]
              exact hlt2
            have hFu : (if (LocalSearch.procesarNodo t).recoloredCount = 0 then (0 : Nat)
                else 1) ≤ 1 := by
              split <;> omega
            omega
          · omega
        · refine Nat.add_lt_add_right ?_ 1
          refine medida_outer_lt ?_ ?_
          · have hce3 : (LocalSearch.procesarNodo t).conflictEdges.length =
                s.conflictEdges.length := by
              rw [heq2, hce2]
            have hrc4 : (LocalSearch.procesarNodo t).recoloredCount = 0 := by
              rw [hrc3]
              exact hrc2
            have hF0 : (if (LocalSearch.procesarNodo t).recoloredCount = 0 then (0 : Nat)
                else 1) = 0 := if_pos hrc4
            omega
          · omega
  · -- mid-pass: process the queued node at the current index
    have hlt : s.currentIndex < s.conflictingNodes.length := Nat.not_le.mp hge
    rw [step_en_pase s hdone hlt]
    obtain ⟨hwu, hu_done, hu_queue, hu_ci, hu_ar, hu_dec⟩ :=
      procesar_wf_decrece s hwf' hdone hlt
    refine ⟨hwu, hu_ar, ?_⟩
    rw [medida_no_hecha _ hu_done, medida_no_hecha s hdone]
    rw [hu_ar, hu_queue, hu_ci]
    rcases hu_dec with hlt2 | ⟨heq2, hrc3⟩
    · refine Nat.add_lt_add_right ?_ 1
      refine medida_outer_lt ?_ ?_
      · have hFu : (if (LocalSearch.procesarNodo s).recoloredCount = 0 then (0 : Nat)
            else 1) ≤ 1 := by
          split <;> omega
        omega
      · omega
    · rw [heq2, hrc3]
      omega

theorem termina_de_medida {α : Type} [DecidableEq α] :
    ∀ (m : Nat) (s : LSState α), WF s → medida s ≤ m →
      ∃ n, (LocalSearch.stepN s n).done = true ∧
        (LocalSearch.stepN s n).totalRecoloredCount ≤ s.aristas.length := by
  intro m
  induction m with
  | zero =>
    intro s hwf hm
    rcases hd : s.done with _ | _
    · exfalso
      rw [medida_no_hecha s hd] at hm
      omega
    · exact ⟨0, hd, wf_total_le s hwf⟩
  | succ m ih =>
    intro s hwf hm
    rcases hd : s.done with _ | _
    · obtain ⟨hwf', har, hlt⟩ := paso_progreso s hwf hd
      obtain ⟨n, h1, h2⟩ := ih (LocalSearch.step s) hwf' (by omega)
      refine ⟨n + 1, ?_, ?_⟩
      · show (LocalSearch.stepN (LocalSearch.step s) n).done = true
        exact h1
      · show (LocalSearch.stepN (LocalSearch.step s) n).totalRecoloredCount ≤ s.aristas.length
        rw [← har]
        exact h2
    · exact ⟨0, hd, wf_total_le s hwf⟩

theorem mutar_id {α : Type} [DecidableEq α] (nodos : List (NodoC α))
    (hnd : (nodos.map (fun n => n.id)).Nodup) :
    nodos.map (fun n => { n with color := asignarColores nodos n.id }) = nodos := by
  have hcong : nodos.map (fun n => ({ n with color := asignarColores nodos n.id } : NodoC α)) =
      nodos.map id := by
    refine List.map_congr_left ?_
    intro n hn
    show ({ n with color := asignarColores nodos n.id } : NodoC α) = n
    rw [asignarColores_of_nodup nodos hnd n hn]
  rw [hcong, List.map_id]

theorem obtener_eq_filter_propio {α : Type} [DecidableEq α] (nodos : List (NodoC α))
    (aristas : List Edge) (hnd : (nodos.map (fun n => n.id)).Nodup) :
    obtenerAristasConflicto nodos aristas =
      aristas.filter (conflictoB nodos (asignarColores nodos)) := by
  have h1 := obtener_mutados_eq_filter nodos (asignarColores nodos) aristas
  rw [mutar_id nodos hnd] at h1
  exact h1

theorem wf_init {α : Type} [DecidableEq α] (nodos : List (NodoC α)) (aristas : List Edge)
    (palette : List α) (hnd : (nodos.map (fun n => n.id)).Nodup)
    (hself : ∀ a ∈ aristas, a.sourceId ≠ a.targetId) :
    WF (LocalSearch.init nodos aristas palette) := by
  have hcons0 : obtenerAristasConflicto nodos aristas =
      aristas.filter (conflictoB nodos (asignarColores nodos)) :=
    obtener_eq_filter_propio nodos aristas hnd
  have hfillen : (obtenerAristasConflicto nodos aristas).length ≤ aristas.length := by
    rw [hcons0]
    exact List.length_filter_le _ _
  refine ⟨hnd, hself, hcons0, ?_, dom_asignar nodos, ?_, ?_, ?_⟩
  · intro id hid
    have hid' : id ∈ nodosDeAristas (obtenerAristasConflicto nodos aristas) := hid
    rw [hcons0] at hid'
    exact cola_de_conflictos nodos (asignarColores nodos) aristas id hid'
  · show (nodosDeAristas (obtenerAristasConflicto nodos aristas)).length ≤ 2 * aristas.length
    have h1 := nodosDeAristas_length (obtenerAristasConflicto nodos aristas)
    omega
  · show 0 + (obtenerAristasConflicto nodos aristas).length ≤
      (obtenerAristasConflicto nodos aristas).length
    omega
  · exact hfillen

/-- Claim C10: on every finite graph with distinct node ids and no
self-loops, iterating `LocalSearch.step()` reaches `done = true` after
finitely many calls — every recolor strictly decreases the number of
conflicting edges, so at most `|E|` recolors ever occur, a pass performs at
most one decision per queued node, and a completed pass with zero recolors
or zero remaining conflicts finishes the run. -/
theorem C10_localSearch_termina {α : Type} [DecidableEq α]
    (nodos : List (NodoC α)) (aristas : List Edge) (palette : List α)
    (hnd : (nodos.map (fun n => n.id)).Nodup)
    (hself : ∀ a ∈ aristas, a.sourceId ≠ a.targetId) :
    ∃ n, (LocalSearch.stepN (LocalSearch.init nodos aristas palette) n).done = true ∧
      (LocalSearch.stepN (LocalSearch.init nodos aristas palette) n).totalRecoloredCount ≤
        aristas.length := by
  obtain ⟨n, h1, h2⟩ := termina_de_medida (medida (LocalSearch.init nodos aristas palette))
    (LocalSearch.init nodos aristas palette) (wf_init nodos aristas palette hnd hself)
    (Nat.le_refl _)
  exact ⟨n, h1, h2⟩

/-- Witness for C10: a conflicting path on three nodes with a two-color
palette terminates with at most two recolors. -/
theorem C10_localSearch_termina_witness :
    ∃ n, (LocalSearch.stepN (LocalSearch.init [⟨1, some 0⟩, ⟨2, some 0⟩, ⟨3, some 0⟩]
        [⟨1, 2⟩, ⟨2, 3⟩] ([0, 1] : List Nat)) n).done = true ∧
      (LocalSearch.stepN (LocalSearch.init [⟨1, some 0⟩, ⟨2, some 0⟩, ⟨3, some 0⟩]
        [⟨1, 2⟩, ⟨2, 3⟩] ([0, 1] : List Nat)) n).totalRecoloredCount ≤
        ([⟨1, 2⟩, ⟨2, 3⟩] : List Edge).length :=
  C10_localSearch_termina [⟨1, some 0⟩, ⟨2, some 0⟩, ⟨3, some 0⟩] [⟨1, 2⟩, ⟨2, 3⟩]
    ([0, 1] : List Nat) (by decide) (by decide)

end GraphColoring
